import Mathlib

/-! RefractIQ device client: the store-and-forward queue.

A shallow embedding of `device/c-client/src/queue.c` and of the flush and
submission paths of `device/c-client/src/main.c`.

* A file is the list of its bytes; a byte is a natural number.
* The file system holds two paths: `queue.log` (`QUEUE_FILE`) and
  `queue.log.tmp`, each absent (`none`) or present with a content.
* A C string argument is a list of bytes; only the bytes before the first
  NUL belong to the string (`cstr`).
* Outcomes of system calls that the file contents do not determine (an
  `fopen` that fails for another reason than `ENOENT`, a failing `rename`)
  are explicit boolean inputs of the operation.
* Writes to an open stream (`fprintf`, `fputs`) are taken to succeed; the
  source does not check them.
-/

namespace RefractIQ

/-- A byte of a file or of a C string. -/
abbrev Byte := Nat

/-- The macro `MAX_LINE_LENGTH` of `config.h`. -/
def MAX_LINE_LENGTH : Nat := 1024

/-- The C string held by a char array: the bytes before the first NUL. -/
def cstr (b : List Byte) : List Byte := b.takeWhile (fun c => c != 0)

/-- The libc function `strlen`. -/
def strlen (b : List Byte) : Nat := (cstr b).length

/-- Conversion of an unsigned value to a 32-bit `int` (two's complement). -/
def to_int (n : Nat) : Int :=
  if n % 2 ^ 32 < 2 ^ 31 then ((n % 2 ^ 32 : Nat) : Int)
  else ((n % 2 ^ 32 : Nat) : Int) - 2 ^ 32

/-- The reading part of `fgets`: take at most `k` bytes from the unread
input, stopping after a newline. Returns the bytes read and the input left. -/
def fgets_read : List Byte → Nat → List Byte × List Byte
  | [], _ => ([], [])
  | b :: rest, 0 => ([], b :: rest)
  | b :: rest, k + 1 =>
    if b = 10 then ([b], rest)
    else ((b :: (fgets_read rest k).1), (fgets_read rest k).2)

/-- The libc function `fgets(buf, n, fp)` on a stream whose unread bytes are
`input`: `none` is the NULL result (nothing stored), `some (bytes, rest)`
gives the bytes stored before the terminating NUL and the input left unread.
With `n <= 0` the result is NULL, with `n = 1` the empty string is stored
and nothing is read (glibc, musl); at end of file the result is NULL. -/
def fgets (n : Int) (input : List Byte) : Option (List Byte × List Byte) :=
  if n ≤ 0 then none
  else if n = 1 then some ([], input)
  else match input with
    | [] => none
    | _ :: _ => some (fgets_read input (n - 1).toNat)

/-- The two paths the queue uses. -/
structure FS where
  /-- Content of `queue.log`, `none` when the file does not exist. -/
  queue : Option (List Byte)
  /-- Content of `queue.log.tmp`, `none` when the file does not exist. -/
  tmp : Option (List Byte)
deriving DecidableEq, Repr

/-- `queue_append(json_line)`: `fopen(queue_path, "a")`, then
`fprintf(fp, "%s\n", json_line)`. `open_fails` says that `fopen` fails. -/
def queue_append (open_fails : Bool) (fs : FS) (json_line : List Byte) : Int × FS :=
  if open_fails then (-1, fs)
  else (0, { fs with queue := some (fs.queue.getD [] ++ cstr json_line ++ [10]) })

/-- System call outcomes during one `queue_pop`. -/
structure PopFaults where
  /-- `fopen(queue_path, "r")` fails with an errno other than `ENOENT`. -/
  open_fails : Bool
  /-- `fopen(temp_path, "w")` fails. -/
  tmp_open_fails : Bool
  /-- `rename(temp_path, queue_path)` fails. -/
  rename_fails : Bool
  /-- `unlink(temp_path)` after a failed rename fails. -/
  unlink_fails : Bool
deriving DecidableEq, Repr

/-- No system call fails. -/
def PopFaults.none : PopFaults := ⟨false, false, false, false⟩

/-- The loop of `queue_pop` that copies the rest of the stream to the
temporary file:
`while (fgets(line, sizeof(line), fp)) { if (first) { first = 0; continue; } fputs(line, fp_write); }`.
`out` is what has been written so far. One unit of fuel is one iteration;
an iteration that does not end the loop consumes at least one byte. -/
def pop_copy_loop : Nat → Bool → List Byte → List Byte → List Byte
  | 0, _, _, out => out
  | fuel + 1, first, input, out =>
    match fgets (to_int MAX_LINE_LENGTH) input with
    | none => out
    | some (line, rest) =>
      if first then pop_copy_loop fuel false rest out
      else pop_copy_loop fuel false rest (out ++ cstr line)

/-- Result of `queue_pop`. -/
structure PopResult where
  /-- The returned `int`. -/
  ret : Int
  /-- The C string in `buffer` on return, `none` when nothing was stored. -/
  buffer : Option (List Byte)
  /-- The files afterwards. -/
  fs : FS
deriving DecidableEq, Repr

/-- The first line as left in `buffer`: `len = strlen(buffer)`, and the
last byte is cut when it is a newline. -/
def strip_newline (raw : List Byte) : List Byte :=
  if 0 < strlen raw ∧ (cstr raw).getLast? = some 10 then (cstr raw).dropLast
  else cstr raw

/-- `queue_pop(buffer, buffer_size)`. -/
def queue_pop (e : PopFaults) (fs : FS) (buffer_size : Nat) : PopResult :=
  if e.open_fails then ⟨-1, none, fs⟩
  else match fs.queue with
    | none => ⟨0, none, fs⟩
    | some content =>
      match fgets (to_int buffer_size) content with
      | none => ⟨0, none, fs⟩
      | some (raw, rest) =>
        let buffer := strip_newline raw
        if e.tmp_open_fails then ⟨-1, some buffer, fs⟩
        else
          let written := pop_copy_loop (rest.length + 1) true rest []
          if e.rename_fails then
            ⟨-1, some buffer,
              { fs with tmp := if e.unlink_fails then some written else none }⟩
          else ⟨to_int buffer.length, some buffer, { queue := some written, tmp := none }⟩

/-- `queue_has_entries()`; `open_fails` says that `fopen(queue_path, "r")`
fails with an errno other than `ENOENT`. -/
def queue_has_entries (open_fails : Bool) (fs : FS) : Int :=
  if open_fails then -1
  else match fs.queue with
    | none => 0
    | some [] => 0
    | some (_ :: _) => 1

/-- Loop of `queue_count`: `while (fgets(line, sizeof(line), fp)) count++;`.
One unit of fuel is one iteration. -/
def count_loop : Nat → List Byte → Int → Int
  | 0, _, count => count
  | fuel + 1, input, count =>
    match fgets (to_int MAX_LINE_LENGTH) input with
    | none => count
    | some (_, rest) => count_loop fuel rest (count + 1)

/-- `queue_count()`; `open_fails` says that `fopen(queue_path, "r")` fails
with an errno other than `ENOENT`. -/
def queue_count (open_fails : Bool) (fs : FS) : Int :=
  if open_fails then -1
  else match fs.queue with
    | none => 0
    | some content => count_loop (content.length + 1) content 0

/-- `queue_clear()`; `unlink_fails` says that `unlink(queue_path)` fails with
an errno other than `ENOENT`. -/
def queue_clear (unlink_fails : Bool) (fs : FS) : Int × FS :=
  if unlink_fails then (-1, fs) else (0, { fs with queue := none })

/-- A queue file made of the given lines, each followed by a newline. -/
def file_of_lines : List (List Byte) → List Byte
  | [] => []
  | l :: ls => l ++ [10] ++ file_of_lines ls

/-- The bytes of an ASCII text. -/
def ascii (s : String) : List Byte := s.toList.map Char.toNat

/-! ## main.c -/

/-- The string `"\"\\\n\r\t"` of `validate_device_id`. -/
def dangerous : List Byte := [34, 92, 10, 13, 9]

/-- `strchr(s, c) != NULL`: `c` occurs in the C string `s`, its terminating
NUL included. -/
def strchr (s : List Byte) (c : Byte) : Bool := c == 0 || (cstr s).contains c

/-- The loop of `validate_device_id`:
`for (p = device_id; *p; p++) if (strchr(dangerous, *p) != NULL) return 0;`
followed by `return 1`. -/
def validate_loop : List Byte → Int
  | [] => 1
  | c :: p =>
    if c = 0 then 1
    else if strchr dangerous c then 0
    else validate_loop p

/-- `validate_device_id(device_id)`; `none` is the NULL pointer. -/
def validate_device_id : Option (List Byte) → Int
  | none => 0
  | some device_id =>
    if strlen device_id > 255 then 0
    else validate_loop device_id

/-- The texts that `strftime` and the conversions `%.4f` and `%.2f` produce
for one reading; time and floating point formatting are not modelled. -/
structure Rendered where
  /-- The timestamp, `%Y-%m-%dT%H:%M:%SZ`. -/
  timestamp : List Byte
  /-- The value, `%.4f`. -/
  value : List Byte
  /-- The temperature, `%.2f`. -/
  temperature_c : List Byte
deriving DecidableEq, Repr

/-- The unit check of `create_reading_json` and `main`:
`strcmp(unit, "RI") != 0 && strcmp(unit, "Brix") != 0`. -/
def unit_invalid (unit : List Byte) : Bool :=
  cstr unit != ascii "RI" && cstr unit != ascii "Brix"

/-- The text the format string of `create_reading_json` expands to. -/
def reading_json (device_id : List Byte) (r : Rendered) (unit : List Byte) : List Byte :=
  ascii "\x7b\"device_id\":\"" ++ cstr device_id ++ ascii "\",\"ts\":\"" ++ cstr r.timestamp
    ++ ascii "\",\"value\":" ++ cstr r.value ++ ascii ",\"unit\":\"" ++ cstr unit
    ++ ascii "\",\"temperature_c\":" ++ cstr r.temperature_c ++ ascii "\x7d"

/-- `create_reading_json(buffer, buffer_size, device_id, value, unit, temperature_c)`:
the returned `int` and the C string left in `buffer` (`none` when nothing
was stored). `snprintf` stores at most `buffer_size - 1` bytes and returns
the full length, or a negative number when that exceeds `INT_MAX`. -/
def create_reading_json (buffer_size : Nat) (device_id : Option (List Byte))
    (r : Rendered) (unit : List Byte) : Int × Option (List Byte) :=
  if validate_device_id device_id = 0 then (-1, none)
  else if unit_invalid unit then (-1, none)
  else
    let text := reading_json (device_id.getD []) r unit
    let stored := if buffer_size = 0 then none else some (text.take (buffer_size - 1))
    let written : Int := if text.length < 2 ^ 31 then (text.length : Int) else -1
    if written < 0 ∨ buffer_size ≤ text.length then (-1, stored)
    else (written, stored)

/-- What the program does to the outside, in order. -/
inductive Event where
  /-- A call of `queue_has_entries`. -/
  | has_entries
  /-- A call of `queue_pop`. -/
  | pop
  /-- A call of `queue_append` with this line. -/
  | append (line : List Byte)
  /-- A call of `http_post_reading` with this body. -/
  | post (body : List Byte)
deriving DecidableEq, Repr

/-- The files together with the calls made so far. -/
structure World where
  /-- The queue file and its temporary file. -/
  fs : FS
  /-- Queue and transport calls so far, oldest first. -/
  trace : List Event
deriving DecidableEq, Repr

/-- The bodies handed to the transport, oldest first. -/
def posts : List Event → List (List Byte)
  | [] => []
  | Event.post body :: t => body :: posts t
  | _ :: t => posts t

/-- The transport `http_post_reading(server_url, API_ENDPOINT, body)` for a
fixed server: the result of the call with this number (from 0) and this
body. `0` is success; the network decides. -/
abbrev Transport := Nat → List Byte → Int

/-- System call outcomes during one iteration of the loop of `flush_queue`. -/
structure FlushFaults where
  /-- The `fopen` of `queue_has_entries` fails with an errno other than `ENOENT`. -/
  has_entries_open_fails : Bool
  /-- The outcomes inside `queue_pop`. -/
  pop : PopFaults
  /-- The `fopen` of the re-appending `queue_append` fails. -/
  append_open_fails : Bool
deriving DecidableEq, Repr

/-- No system call fails. -/
def FlushFaults.none : FlushFaults := ⟨false, PopFaults.none, false⟩

/-- The loop of `flush_queue`, `i` counting the iterations done and
`flushed` the local variable. One unit of fuel is one iteration; `none`
means the fuel ran out before the loop ended. -/
def flush_loop (post : Transport) (io : Nat → FlushFaults) :
    Nat → Nat → Int → World → Option (Int × World)
  | 0, _, _, _ => none
  | fuel + 1, i, flushed, w =>
    let w1 : World := { w with trace := w.trace ++ [Event.has_entries] }
    if queue_has_entries (io i).has_entries_open_fails w.fs = 1 then
      let r := queue_pop (io i).pop w.fs MAX_LINE_LENGTH
      let w2 : World := { fs := r.fs, trace := w1.trace ++ [Event.pop] }
      if r.ret ≤ 0 then some (flushed, w2)
      else
        let queued_json := r.buffer.getD []
        let w3 : World := { w2 with trace := w2.trace ++ [Event.post queued_json] }
        if post (posts w2.trace).length queued_json = 0 then
          flush_loop post io fuel (i + 1) (flushed + 1) w3
        else
          let a := queue_append (io i).append_open_fails w3.fs queued_json
          some (flushed, { fs := a.2, trace := w3.trace ++ [Event.append queued_json] })
    else some (flushed, w1)

/-- `flush_queue(server_url)`: the returned count and the world afterwards.
The fuel is one more than the size of the queue file: every iteration that
continues the loop makes the file shorter. -/
def flush_queue (post : Transport) (io : Nat → FlushFaults) (w : World) :
    Option (Int × World) :=
  flush_loop post io ((w.fs.queue.getD []).length + 1) 0 0 w

/-- `send_reading(server_url, device_id, value, unit, temperature_c)`;
`append_open_fails` is the outcome of the `fopen` of the fallback
`queue_append`. -/
def send_reading (post : Transport) (append_open_fails : Bool) (w : World)
    (device_id : Option (List Byte)) (r : Rendered) (unit : List Byte) : Int × World :=
  let c := create_reading_json 512 device_id r unit
  if c.1 < 0 then (-1, w)
  else
    let json_payload := c.2.getD []
    let w1 : World := { w with trace := w.trace ++ [Event.post json_payload] }
    if post (posts w.trace).length json_payload = 0 then (0, w1)
    else
      let a := queue_append append_open_fails w1.fs json_payload
      (-1, { fs := a.2, trace := w1.trace ++ [Event.append json_payload] })

/-- The command line after the `getopt_long` loop of `main`. -/
structure Args where
  /-- Option `-d`, `none` when not given. -/
  device_id : Option (List Byte)
  /-- Option `-u`, `none` when not given. -/
  unit : Option (List Byte)
  /-- Option `-f`. -/
  flush_only : Bool
  /-- The renderings of the timestamp, of `-v` and of `-t`. -/
  rendered : Rendered
deriving DecidableEq, Repr

/-- The body of `main` after option parsing: the exit code and the world
afterwards; `none` only if the flush loop ran out of fuel. -/
def main (post : Transport) (io : Nat → FlushFaults) (append_open_fails : Bool)
    (a : Args) (w : World) : Option (Int × World) :=
  if a.flush_only then
    match flush_queue post io w with
    | none => none
    | some (flushed, w1) => some (if flushed ≥ 0 then 0 else 1, w1)
  else
    match a.device_id, a.unit with
    | some device_id, some unit =>
      if validate_device_id (some device_id) = 0 then some (1, w)
      else if unit_invalid unit then some (1, w)
      else
        match flush_queue post io w with
        | none => none
        | some (_, w1) =>
          let s := send_reading post append_open_fails w1 (some device_id) a.rendered unit
          some (if s.1 = 0 then 0 else 1, s.2)
    | _, _ => some (1, w)

/-! ## Claim-level vocabulary -/

/-- The calls `queue_append(A1)`, ..., `queue_append(An)` in this order, no
`fopen` failing: the files afterwards. -/
def append_all (fs : FS) : List (List Byte) → FS
  | [] => fs
  | a :: rest => append_all (queue_append false fs a).2 rest

/-- One `queue_pop` per element of `es` (the system call outcomes of that
call), all with the same buffer size: the returned values with the buffer
contents, in call order, and the files afterwards. -/
def pop_seq (buffer_size : Nat) : List PopFaults → FS → List (Int × Option (List Byte)) × FS
  | [], fs => ([], fs)
  | e :: es, fs =>
    let r := queue_pop e fs buffer_size
    ((r.ret, r.buffer) :: (pop_seq buffer_size es r.fs).1, (pop_seq buffer_size es r.fs).2)

/-- The device-id rule in the words of the specification: non-empty, at
most 255 bytes, none of the five characters. -/
def device_id_spec (s : List Byte) : Prop :=
  s ≠ [] ∧ s.length ≤ 255 ∧ ∀ c ∈ s, c ≠ 34 ∧ c ≠ 92 ∧ c ≠ 10 ∧ c ≠ 13 ∧ c ≠ 9

/-- Renderings of a timestamp, a value and a temperature, for examples. -/
def sample_rendered : Rendered :=
  ⟨ascii "2024-01-01T00:00:00Z", ascii "1.3330", ascii "25.00"⟩

/-- The serialized reading of device `DEV1`. -/
def DEV1_record : List Byte := reading_json (ascii "DEV1") sample_rendered (ascii "RI")

/-- The serialized reading of device `DEV2`. -/
def DEV2_record : List Byte := reading_json (ascii "DEV2") sample_rendered (ascii "Brix")

/-- A transport that always succeeds. -/
def transport_ok : Transport := fun _ _ => 0

/-- A transport that fails on the body `r` and succeeds on every other one. -/
def transport_failing_on (r : List Byte) : Transport :=
  fun _ body => if body = r then -1 else 0

/-- No system call fails during the flush. -/
def no_faults : Nat → FlushFaults := fun _ => FlushFaults.none

/-- A line a `MAX_LINE_LENGTH` buffer holds whole with its newline: no NUL
byte, no newline, at most `MAX_LINE_LENGTH - 2` bytes. -/
def line_ok (l : List Byte) : Prop :=
  (∀ c ∈ l, c ≠ 0 ∧ c ≠ 10) ∧ l.length + 2 ≤ MAX_LINE_LENGTH

/-- Among the transport calls with the bodies `bodies`, numbered from `k`,
the number of those the transport answers with 0. -/
def successes (post : Transport) : Nat → List (List Byte) → Nat
  | _, [] => 0
  | k, b :: bs => (if post k b = 0 then 1 else 0) + successes post (k + 1) bs

/-- The number of `fgets` reads with a `MAX_LINE_LENGTH` buffer that start
in a stream, counted byte by byte: `room` is the number of bytes the read
in progress can still take, 0 when no read is in progress. A read ends
behind a newline or when its 1023 bytes are taken. -/
def reads_from : Nat → List Byte → Nat
  | _, [] => 0
  | 0, b :: t => 1 + reads_from (if b = 10 then 0 else 1022) t
  | room + 1, b :: t => reads_from (if b = 10 then 0 else room) t

/-! ## Basic facts -/

theorem cstr_eq_self (s : List Byte) (h : ∀ c ∈ s, c ≠ 0) : cstr s = s := by
  unfold cstr
  rw [List.takeWhile_eq_self_iff]
  intro c hc
  simpa using h c hc

theorem cstr_length_le (s : List Byte) : (cstr s).length ≤ s.length := by
  unfold cstr
  exact (List.takeWhile_sublist _).length_le

theorem cstr_no_nul (s : List Byte) : ∀ c ∈ cstr s, c ≠ 0 := by
  intro c hc
  have := List.mem_takeWhile_imp hc
  simpa using this

theorem to_int_of_lt (n : Nat) (h : n < 2 ^ 31) : to_int n = (n : Int) := by
  unfold to_int
  have h1 : n % 2 ^ 32 = n := Nat.mod_eq_of_lt (by omega)
  rw [h1, if_pos h]

theorem to_int_lt (n : Nat) : to_int n < 2 ^ 31 := by
  unfold to_int
  split
  · omega
  · omega

theorem fgets_read_length (input : List Byte) (k : Nat) :
    (fgets_read input k).1.length ≤ k := by
  induction input generalizing k with
  | nil => simp [fgets_read]
  | cons b rest ih =>
    cases k with
    | zero => simp [fgets_read]
    | succ k =>
      unfold fgets_read
      split
      · simp
      · simpa using ih k

theorem fgets_length (n : Int) (input raw rest : List Byte)
    (h : fgets n input = some (raw, rest)) : (raw.length : Int) + 1 ≤ n := by
  unfold fgets at h
  split at h
  · simp at h
  · split at h
    · simp only [Option.some.injEq, Prod.mk.injEq] at h
      rw [← h.1]
      simp
      omega
    · split at h
      · simp at h
      · rename_i b tl
        simp only [Option.some.injEq] at h
        have := fgets_read_length (b :: tl) (n - 1).toNat
        rw [h] at this
        simp only at this
        omega

theorem strip_newline_length_le (raw : List Byte) :
    (strip_newline raw).length ≤ raw.length := by
  unfold strip_newline
  have := cstr_length_le raw
  split
  · simp
    omega
  · exact this

theorem to_int_max_line : to_int MAX_LINE_LENGTH = 1024 := by decide

theorem fgets_read_rest_length (input : List Byte) (k : Nat) :
    (fgets_read input k).2.length ≤ input.length := by
  induction input generalizing k with
  | nil => simp [fgets_read]
  | cons b rest ih =>
    cases k with
    | zero => simp [fgets_read]
    | succ k =>
      unfold fgets_read
      split
      · simp
      · have := ih k
        simp only [List.length_cons]
        omega

theorem fgets_read_consumes (b : Byte) (tl : List Byte) (k : Nat) :
    (fgets_read (b :: tl) (k + 1)).2.length < (b :: tl).length := by
  unfold fgets_read
  split
  · simp
  · have := fgets_read_rest_length tl k
    simp only [List.length_cons]
    omega

/-- A successful `fgets` into a `MAX_LINE_LENGTH` buffer consumes input. -/
theorem fgets_max_line_consumes (input line rest : List Byte)
    (h : fgets (to_int MAX_LINE_LENGTH) input = some (line, rest)) :
    rest.length < input.length := by
  rw [to_int_max_line] at h
  unfold fgets at h
  cases input with
  | nil => simp at h
  | cons b tl =>
    have hk : ((1024 : Int) - 1).toNat = 1022 + 1 := by decide
    simp only [hk] at h
    norm_num at h
    have := fgets_read_consumes b tl 1022
    rw [h] at this
    exact this

/-- More fuel than the input has bytes never changes what the copy loop of
`queue_pop` writes: the loop ends by end of file, not by lack of fuel. -/
theorem pop_copy_loop_fuel (fuel : Nat) (first : Bool) (input out : List Byte)
    (h : input.length < fuel) :
    pop_copy_loop (fuel + 1) first input out = pop_copy_loop fuel first input out := by
  induction fuel generalizing first input out with
  | zero => omega
  | succ f ih =>
    rw [pop_copy_loop]
    conv => rhs; rw [pop_copy_loop]
    cases hf : fgets (to_int MAX_LINE_LENGTH) input with
    | none => rfl
    | some p =>
      obtain ⟨line, rest⟩ := p
      have hr := fgets_max_line_consumes input line rest hf
      have hlt : rest.length < f := by omega
      simp only [ih _ _ _ hlt]

theorem pop_copy_loop_fuel_ge (fuel : Nat) (first : Bool) (input out : List Byte)
    (h : input.length < fuel) :
    pop_copy_loop fuel first input out
      = pop_copy_loop (input.length + 1) first input out := by
  induction fuel with
  | zero => omega
  | succ f ih =>
    by_cases hf : input.length < f
    · rw [pop_copy_loop_fuel f first input out hf, ih hf]
    · have : f = input.length := by omega
      rw [this]

/-- The copy loop with the fuel `queue_pop` gives it satisfies the equation
of the source loop: at end of file it stops, otherwise it drops the line
when `first` is set, writes it when not, and goes on with `first` cleared. -/
theorem pop_copy_loop_eq (first : Bool) (input out : List Byte) :
    pop_copy_loop (input.length + 1) first input out =
      match fgets (to_int MAX_LINE_LENGTH) input with
      | none => out
      | some (line, rest) =>
        pop_copy_loop (rest.length + 1) false rest (if first then out else out ++ cstr line) := by
  rw [pop_copy_loop]
  cases hf : fgets (to_int MAX_LINE_LENGTH) input with
  | none => rfl
  | some p =>
    obtain ⟨line, rest⟩ := p
    have hr := fgets_max_line_consumes input line rest hf
    simp only
    rw [pop_copy_loop_fuel_ge _ _ rest _ hr, pop_copy_loop_fuel_ge _ _ rest _ hr]
    cases first <;> simp

theorem fgets_read_line (l rest : List Byte) (k : Nat)
    (hnl : ∀ c ∈ l, c ≠ 10) (hk : l.length < k) :
    fgets_read (l ++ 10 :: rest) k = (l ++ [10], rest) := by
  induction l generalizing k with
  | nil =>
    cases k with
    | zero => omega
    | succ k => simp [fgets_read]
  | cons b tl ih =>
    cases k with
    | zero => omega
    | succ k =>
      have hb : b ≠ 10 := hnl b (by simp)
      have htl := ih k (fun c hc => hnl c (by simp [hc])) (by simpa using hk)
      rw [List.cons_append, fgets_read, if_neg hb, htl]
      rfl

/-- On a stream that starts with a line fitting the buffer, `fgets` with a
`MAX_LINE_LENGTH` buffer stores the line with its newline and stops there. -/
theorem fgets_line (l rest : List Byte) (h : line_ok l) :
    fgets (to_int MAX_LINE_LENGTH) (l ++ 10 :: rest) = some (l ++ [10], rest) := by
  rw [to_int_max_line]
  have hk : ((1024 : Int) - 1).toNat = 1023 := by decide
  have hlen : l.length < 1023 := by
    have := h.2
    unfold MAX_LINE_LENGTH at this
    omega
  have hr := fgets_read_line l rest 1023 (fun c hc => (h.1 c hc).2) hlen
  unfold fgets
  cases hl : l ++ 10 :: rest with
  | nil => simp at hl
  | cons b tl =>
    rw [hl] at hr
    simp only [hk, hr]
    norm_num

theorem cstr_line (l : List Byte) (h : line_ok l) : cstr (l ++ [10]) = l ++ [10] := by
  apply cstr_eq_self
  intro c hc
  simp only [List.mem_append, List.mem_singleton] at hc
  rcases hc with hc | hc
  · exact (h.1 c hc).1
  · rw [hc]; decide

theorem strip_newline_line (l : List Byte) (h : line_ok l) :
    strip_newline (l ++ [10]) = l := by
  unfold strip_newline strlen
  rw [cstr_line l h]
  simp

theorem file_of_lines_cons (l : List Byte) (ls : List (List Byte)) :
    file_of_lines (l :: ls) = l ++ 10 :: file_of_lines ls := by
  simp [file_of_lines]

theorem file_of_lines_append (xs ys : List (List Byte)) :
    file_of_lines (xs ++ ys) = file_of_lines xs ++ file_of_lines ys := by
  induction xs with
  | nil => simp [file_of_lines]
  | cons l ls ih => simp [file_of_lines, ih]

/-- The copy loop on a stream of whole lines, `first` cleared: it writes
every line. -/
theorem pop_copy_loop_lines (ls : List (List Byte)) (out : List Byte)
    (h : ∀ l ∈ ls, line_ok l) :
    pop_copy_loop ((file_of_lines ls).length + 1) false (file_of_lines ls) out
      = out ++ file_of_lines ls := by
  induction ls generalizing out with
  | nil => simp [file_of_lines, pop_copy_loop, fgets, to_int_max_line]
  | cons l ls ih =>
    have hl := h l (by simp)
    rw [pop_copy_loop_eq, file_of_lines_cons, fgets_line l _ hl]
    simp only [Bool.false_eq_true, if_false]
    rw [ih _ (fun x hx => h x (by simp [hx])), cstr_line l hl]
    simp

/-- The copy loop as `queue_pop` starts it (`first` set) on a stream of
whole lines: it writes every line but the first one of the stream. -/
theorem pop_copy_loop_skips_one (ls : List (List Byte)) (h : ∀ l ∈ ls, line_ok l) :
    pop_copy_loop ((file_of_lines ls).length + 1) true (file_of_lines ls) []
      = file_of_lines (ls.drop 1) := by
  cases ls with
  | nil => simp [file_of_lines, pop_copy_loop, fgets, to_int_max_line]
  | cons l ls =>
    have hl := h l (by simp)
    rw [pop_copy_loop_eq, file_of_lines_cons, fgets_line l _ hl]
    simp only [if_true]
    rw [pop_copy_loop_lines ls [] (fun x hx => h x (by simp [hx]))]
    simp

/-- What `queue_pop` does on a queue file of whole lines when no system
call fails: it returns the length of the first line with that line in the
buffer, and the file afterwards holds the lines from the third on. The
second line is removed together with the first. -/
theorem queue_pop_lines (l : List Byte) (ls : List (List Byte)) (tmp : Option (List Byte))
    (hl : line_ok l) (hls : ∀ x ∈ ls, line_ok x) :
    queue_pop PopFaults.none ⟨some (file_of_lines (l :: ls)), tmp⟩ MAX_LINE_LENGTH
      = ⟨(l.length : Int), some l, ⟨some (file_of_lines (ls.drop 1)), none⟩⟩ := by
  have hlen : l.length < 2 ^ 31 := by
    have := hl.2
    unfold MAX_LINE_LENGTH at this
    omega
  unfold queue_pop
  simp only [PopFaults.none, Bool.false_eq_true, if_false, file_of_lines_cons,
    fgets_line l _ hl, strip_newline_line l hl, pop_copy_loop_skips_one ls hls,
    to_int_of_lt _ hlen]

theorem queue_pop_of_empty (e : PopFaults) (fs : FS) (buffer_size : Nat)
    (hopen : e.open_fails = false)
    (hempty : fs.queue = none ∨ (fs.queue = some [] ∧ to_int buffer_size ≠ 1)) :
    queue_pop e fs buffer_size = ⟨0, none, fs⟩ := by
  unfold queue_pop
  rw [hopen]
  rcases hempty with h | ⟨h, hb⟩
  · simp [h]
  · simp [h, fgets, hb]

theorem strchr_dangerous (c : Byte) (hc : c ≠ 0) :
    strchr dangerous c = true ↔ (c = 34 ∨ c = 92 ∨ c = 10 ∨ c = 13 ∨ c = 9) := by
  have hd : cstr dangerous = [34, 92, 10, 13, 9] := by decide
  unfold strchr
  rw [hd]
  simp [hc]

theorem validate_loop_zero_or_one (s : List Byte) :
    validate_loop s = 1 ∨ validate_loop s = 0 := by
  induction s with
  | nil => simp [validate_loop]
  | cons c p ih =>
    unfold validate_loop
    split
    · simp
    · split
      · simp
      · exact ih

theorem validate_loop_eq_one_iff (s : List Byte) :
    validate_loop s = 1 ↔ ∀ c ∈ cstr s, c ≠ 34 ∧ c ≠ 92 ∧ c ≠ 10 ∧ c ≠ 13 ∧ c ≠ 9 := by
  induction s with
  | nil => simp [validate_loop, cstr]
  | cons c p ih =>
    unfold validate_loop
    by_cases hc : c = 0
    · simp [hc, cstr]
    · have hs := strchr_dangerous c hc
      have hcs : cstr (c :: p) = c :: cstr p := by simp [cstr, hc]
      rw [if_neg hc, hcs]
      by_cases hd : strchr dangerous c = true
      · rw [if_pos hd]
        have := hs.mp hd
        simp only [List.mem_cons, forall_eq_or_imp]
        constructor
        · intro h; simp at h
        · intro h; tauto
      · rw [if_neg hd, ih]
        have hn : ¬ (c = 34 ∨ c = 92 ∨ c = 10 ∨ c = 13 ∨ c = 9) := fun h => hd (hs.mpr h)
        simp only [List.mem_cons, forall_eq_or_imp]
        constructor
        · intro h; exact ⟨by tauto, h⟩
        · intro h; exact h.2

theorem validate_device_id_eq_one_iff (s : List Byte) :
    validate_device_id (some s) = 1 ↔
      ((cstr s).length ≤ 255 ∧ ∀ c ∈ cstr s, c ≠ 34 ∧ c ≠ 92 ∧ c ≠ 10 ∧ c ≠ 13 ∧ c ≠ 9) := by
  simp only [validate_device_id, strlen]
  by_cases hl : (cstr s).length > 255
  · rw [if_pos hl]
    constructor
    · intro h; simp at h
    · intro h; omega
  · rw [if_neg hl, validate_loop_eq_one_iff]
    constructor
    · intro h; exact ⟨by omega, h⟩
    · intro h; exact h.2

theorem validate_device_id_zero_or_one (d : Option (List Byte)) :
    validate_device_id d = 1 ∨ validate_device_id d = 0 := by
  cases d with
  | none => simp [validate_device_id]
  | some s =>
    simp only [validate_device_id]
    split
    · simp
    · exact validate_loop_zero_or_one s

theorem validate_device_id_rejects (s : List Byte)
    (h : (∃ c ∈ cstr s, c = 34 ∨ c = 92 ∨ c = 10 ∨ c = 13 ∨ c = 9) ∨ 255 < strlen s) :
    validate_device_id (some s) = 0 := by
  rcases validate_device_id_zero_or_one (some s) with h1 | h1
  · exfalso
    have h2 := (validate_device_id_eq_one_iff s).mp h1
    rcases h with ⟨c, hc, hd⟩ | hl
    · have := h2.2 c hc
      tauto
    · unfold strlen at hl
      omega
  · exact h1

theorem reading_json_no_nul (device_id : List Byte) (r : Rendered) (unit : List Byte) :
    ∀ c ∈ reading_json device_id r unit, c ≠ 0 := by
  have hk : ∀ t : String, (∀ c ∈ ascii t, c ≠ 0) → ∀ c ∈ ascii t, c ≠ 0 := fun _ h => h
  intro c hc
  unfold reading_json at hc
  simp only [List.mem_append] at hc
  rcases hc with ((((((((((h | h) | h) | h) | h) | h) | h) | h) | h) | h) | h)
  · exact hk _ (by decide) c h
  · exact cstr_no_nul _ c h
  · exact hk _ (by decide) c h
  · exact cstr_no_nul _ c h
  · exact hk _ (by decide) c h
  · exact cstr_no_nul _ c h
  · exact hk _ (by decide) c h
  · exact cstr_no_nul _ c h
  · exact hk _ (by decide) c h
  · exact cstr_no_nul _ c h
  · exact hk _ (by decide) c h

theorem create_reading_json_of_ok (buffer_size : Nat) (device_id : Option (List Byte))
    (r : Rendered) (unit : List Byte)
    (h : 0 ≤ (create_reading_json buffer_size device_id r unit).1) :
    create_reading_json buffer_size device_id r unit
        = (((reading_json (device_id.getD []) r unit).length : Int),
            some (reading_json (device_id.getD []) r unit))
    ∧ (reading_json (device_id.getD []) r unit).length < buffer_size := by
  unfold create_reading_json at h ⊢
  by_cases h1 : validate_device_id device_id = 0
  · simp [h1] at h
  · by_cases h2 : unit_invalid unit = true
    · simp [h1, h2] at h
    · simp only [h1, h2, if_false, Bool.false_eq_true] at h ⊢
      by_cases h3 : (reading_json (device_id.getD []) r unit).length < 2 ^ 31
      · by_cases h4 : buffer_size ≤ (reading_json (device_id.getD []) r unit).length
        · simp [h3, h4] at h
        · have h5 : buffer_size ≠ 0 := by omega
          have h6 : List.take (buffer_size - 1) (reading_json (device_id.getD []) r unit)
              = reading_json (device_id.getD []) r unit :=
            List.take_of_length_le (by omega)
          simp only [h3, h4, h5, h6, if_true, if_false, or_false]
          constructor
          · simp
          · omega
      · simp only [h3, if_false] at h
        simp at h

theorem fgets_read_split (x : List Byte) (k : Nat) :
    (fgets_read x k).1 ++ (fgets_read x k).2 = x := by
  induction x generalizing k with
  | nil => simp [fgets_read]
  | cons b t ih =>
    cases k with
    | zero => simp [fgets_read]
    | succ k =>
      unfold fgets_read
      split
      · simp
      · simp [ih k]

/-- Reading through a stretch without newline: the stretch is stored and the
reading goes on behind it with the room that is left. -/
theorem fgets_read_nl_free (p s : List Byte) (j : Nat) (hp : ∀ c ∈ p, c ≠ 10) :
    fgets_read (p ++ s) (p.length + j)
      = (p ++ (fgets_read s j).1, (fgets_read s j).2) := by
  induction p with
  | nil => simp
  | cons b t ih =>
    have hb : b ≠ 10 := hp b (by simp)
    have ht := ih (fun c hc => hp c (by simp [hc]))
    have hk : (b :: t).length + j = (t.length + j) + 1 := by simp; omega
    rw [hk, List.cons_append, fgets_read, if_neg hb, ht]
    rfl

theorem fgets_read_zero (s : List Byte) : fgets_read s 0 = ([], s) := by
  cases s <;> simp [fgets_read]

/-- A stretch without newline that fills the room, or that ends the file, is
what `fgets` stores. -/
theorem fgets_read_chunk (p rest : List Byte) (k : Nat) (hp : ∀ c ∈ p, c ≠ 10)
    (hk : p.length ≤ k) (h : p.length = k ∨ rest = []) :
    fgets_read (p ++ rest) k = (p, rest) := by
  obtain ⟨j, hj⟩ : ∃ j, k = p.length + j := ⟨k - p.length, by omega⟩
  rw [hj, fgets_read_nl_free p rest j hp]
  rcases h with h | h
  · have : j = 0 := by omega
    rw [this, fgets_read_zero]
    simp
  · rw [h]
    simp [fgets_read]

theorem strip_newline_nl_free (p : List Byte) (h : ∀ c ∈ p, c ≠ 0 ∧ c ≠ 10) :
    strip_newline p = p := by
  unfold strip_newline
  rw [cstr_eq_self p (fun c hc => (h c hc).1)]
  have hl : ¬ (p.getLast? = some 10) := by
    intro hl
    have := List.mem_of_getLast?_eq_some hl
    exact (h 10 this).2 rfl
  simp [hl]

/-- An oversized or unterminated first line: `queue_pop` returns the length
of the part that `fgets` could store, and that part is in the buffer. -/
theorem queue_pop_chunk (p rest : List Byte) (tmp : Option (List Byte)) (buffer_size : Nat)
    (hp : ∀ c ∈ p, c ≠ 0 ∧ c ≠ 10) (hne : p ≠ [])
    (hsize : buffer_size < 2 ^ 31) (hk : p.length + 1 ≤ buffer_size)
    (h : p.length + 1 = buffer_size ∨ rest = []) :
    (queue_pop PopFaults.none ⟨some (p ++ rest), tmp⟩ buffer_size).ret = (p.length : Int)
    ∧ (queue_pop PopFaults.none ⟨some (p ++ rest), tmp⟩ buffer_size).buffer = some p := by
  have hpl : 0 < p.length := List.length_pos.mpr hne
  have hti : to_int buffer_size = (buffer_size : Int) := to_int_of_lt _ hsize
  have hn : ((buffer_size : Int) - 1).toNat = buffer_size - 1 := by omega
  have hr := fgets_read_chunk p rest (buffer_size - 1) (fun c hc => (hp c hc).2) (by omega)
    (by rcases h with h | h
        · left; omega
        · right; exact h)
  have hf : fgets (to_int buffer_size) (p ++ rest) = some (p, rest) := by
    unfold fgets
    rw [hti, hn]
    have h1 : ¬ ((buffer_size : Int) ≤ 0) := by omega
    have h2 : ¬ ((buffer_size : Int) = 1) := by omega
    rw [if_neg h1, if_neg h2]
    cases hx : p ++ rest with
    | nil => simp at hx; exact absurd hx.1 hne
    | cons b t => rw [hx] at hr; simp [hr]
  have hlen : p.length < 2 ^ 31 := by omega
  unfold queue_pop
  simp only [PopFaults.none, Bool.false_eq_true, if_false, hf, strip_newline_nl_free p hp,
    to_int_of_lt _ hlen, and_self]

theorem strip_newline_pos (b : Byte) (r : List Byte) (hb0 : b ≠ 0) (hb10 : b ≠ 10) :
    0 < (strip_newline (b :: r)).length := by
  have hc : cstr (b :: r) = b :: cstr r := by simp [cstr, hb0]
  unfold strip_newline strlen
  rw [hc]
  split
  · rename_i h
    cases hr : cstr r with
    | nil =>
      rw [hr] at h
      simp at h
      exact absurd h hb10
    | cons c t => simp
  · simp

/-- What `queue_pop` returns on a non-empty queue file when no system call
fails and the buffer has `MAX_LINE_LENGTH` bytes: the length of the string
left in the buffer, and the rename is done. -/
theorem queue_pop_nonempty (b : Byte) (tl : List Byte) (tmp : Option (List Byte)) :
    queue_pop PopFaults.none ⟨some (b :: tl), tmp⟩ MAX_LINE_LENGTH
      = ⟨((strip_newline (fgets_read (b :: tl) 1023).1).length : Int),
          some (strip_newline (fgets_read (b :: tl) 1023).1),
          ⟨some (pop_copy_loop ((fgets_read (b :: tl) 1023).2.length + 1) true
              (fgets_read (b :: tl) 1023).2 []), none⟩⟩ := by
  have hk : ((1024 : Int) - 1).toNat = 1023 := by decide
  have hf : fgets (to_int MAX_LINE_LENGTH) (b :: tl) = some (fgets_read (b :: tl) 1023) := by
    rw [to_int_max_line]
    unfold fgets
    simp [hk]
  have hlen : (strip_newline (fgets_read (b :: tl) 1023).1).length < 2 ^ 31 := by
    have h1 := strip_newline_length_le (fgets_read (b :: tl) 1023).1
    have h2 := fgets_read_length (b :: tl) 1023
    omega
  unfold queue_pop
  simp only [PopFaults.none, Bool.false_eq_true, if_false, hf, to_int_of_lt _ hlen]

/-- More fuel than the input has bytes never changes what the loop of
`queue_count` counts. -/
theorem count_loop_fuel (fuel : Nat) (input : List Byte) (count : Int)
    (h : input.length < fuel) :
    count_loop (fuel + 1) input count = count_loop fuel input count := by
  induction fuel generalizing input count with
  | zero => omega
  | succ f ih =>
    rw [count_loop]
    conv => rhs; rw [count_loop]
    cases hf : fgets (to_int MAX_LINE_LENGTH) input with
    | none => rfl
    | some p =>
      obtain ⟨line, rest⟩ := p
      have hr := fgets_max_line_consumes input line rest hf
      have hlt : rest.length < f := by omega
      simp only [ih _ _ hlt]

theorem count_loop_fuel_ge (fuel : Nat) (input : List Byte) (count : Int)
    (h : input.length < fuel) :
    count_loop fuel input count = count_loop (input.length + 1) input count := by
  induction fuel with
  | zero => omega
  | succ f ih =>
    by_cases hf : input.length < f
    · rw [count_loop_fuel f input count hf, ih hf]
    · have : f = input.length := by omega
      rw [this]

theorem count_loop_acc (fuel : Nat) (input : List Byte) (count : Int) :
    count_loop fuel input count = count + count_loop fuel input 0 := by
  induction fuel generalizing input count with
  | zero => simp [count_loop]
  | succ f ih =>
    rw [count_loop]
    conv => rhs; rw [count_loop]
    cases hf : fgets (to_int MAX_LINE_LENGTH) input with
    | none => simp
    | some p =>
      obtain ⟨line, rest⟩ := p
      simp only
      rw [ih rest (count + 1), ih rest (0 + 1)]
      omega

/-- The number of `fgets` reads the loop of `queue_count` makes on a
stream, with the fuel `queue_count` gives it. -/
theorem count_loop_eq (input : List Byte) :
    count_loop (input.length + 1) input 0 =
      match fgets (to_int MAX_LINE_LENGTH) input with
      | none => 0
      | some (_, rest) => 1 + count_loop (rest.length + 1) rest 0 := by
  rw [count_loop]
  cases hf : fgets (to_int MAX_LINE_LENGTH) input with
  | none => rfl
  | some p =>
    obtain ⟨line, rest⟩ := p
    have hr := fgets_max_line_consumes input line rest hf
    simp only
    rw [count_loop_fuel_ge _ rest _ hr, count_loop_acc]
    simp

theorem count_loop_nonneg (fuel : Nat) (input : List Byte) :
    0 ≤ count_loop fuel input 0 := by
  induction fuel generalizing input with
  | zero => simp [count_loop]
  | succ f ih =>
    rw [count_loop]
    cases hf : fgets (to_int MAX_LINE_LENGTH) input with
    | none => simp
    | some p =>
      obtain ⟨line, rest⟩ := p
      simp only
      rw [count_loop_acc]
      have := ih rest
      omega

/-- On a stream that starts with a line of at most `MAX_LINE_LENGTH - 2`
bytes, `fgets` with a `MAX_LINE_LENGTH` buffer stores the line with its
newline, whatever bytes other than newline the line holds. -/
theorem fgets_line_len (l rest : List Byte) (hnl : ∀ c ∈ l, c ≠ 10)
    (hlen : l.length + 2 ≤ MAX_LINE_LENGTH) :
    fgets (to_int MAX_LINE_LENGTH) (l ++ 10 :: rest) = some (l ++ [10], rest) := by
  rw [to_int_max_line]
  have hk : ((1024 : Int) - 1).toNat = 1023 := by decide
  have hl : l.length < 1023 := by
    unfold MAX_LINE_LENGTH at hlen
    omega
  have hr := fgets_read_line l rest 1023 hnl hl
  unfold fgets
  cases hx : l ++ 10 :: rest with
  | nil => simp at hx
  | cons b tl =>
    rw [hx] at hr
    simp only [hk, hr]
    norm_num

/-- The loop of `queue_count` on a file of lines that fit the buffer counts
the lines. -/
theorem count_loop_lines (ls : List (List Byte))
    (h : ∀ l ∈ ls, (∀ c ∈ l, c ≠ 10) ∧ l.length + 2 ≤ MAX_LINE_LENGTH) :
    count_loop ((file_of_lines ls).length + 1) (file_of_lines ls) 0 = (ls.length : Int) := by
  induction ls with
  | nil => simp [file_of_lines, count_loop, fgets, to_int_max_line]
  | cons l ls ih =>
    have hl := h l (by simp)
    rw [count_loop_eq, file_of_lines_cons, fgets_line_len l _ hl.1 hl.2]
    simp only
    rw [ih (fun x hx => h x (by simp [hx]))]
    push_cast [List.length_cons]
    ring

theorem strip_newline_append_nl (l : List Byte) (h0 : ∀ c ∈ l, c ≠ 0) :
    strip_newline (l ++ [10]) = l := by
  have hc : cstr (l ++ [10]) = l ++ [10] := by
    apply cstr_eq_self
    intro c hc
    simp only [List.mem_append, List.mem_singleton] at hc
    rcases hc with hc | hc
    · exact h0 c hc
    · rw [hc]; decide
  unfold strip_newline strlen
  rw [hc]
  simp

theorem fgets_split (n : Int) (x line rest : List Byte)
    (h : fgets n x = some (line, rest)) : line ++ rest = x := by
  unfold fgets at h
  split at h
  · simp at h
  · split at h
    · simp only [Option.some.injEq, Prod.mk.injEq] at h
      rw [← h.1, ← h.2]
      simp
    · split at h
      · simp at h
      · rename_i b tl
        simp only [Option.some.injEq] at h
        have := fgets_read_split (b :: tl) (n - 1).toNat
        rw [h] at this
        exact this

/-- On a stream without NUL byte the copy loop, `first` cleared, writes the
stream as it is. -/
theorem pop_copy_loop_nul_free (n : Nat) (x out : List Byte) (hn : x.length ≤ n)
    (h0 : ∀ c ∈ x, c ≠ 0) :
    pop_copy_loop (x.length + 1) false x out = out ++ x := by
  induction n generalizing x out with
  | zero =>
    have : x = [] := List.length_eq_zero.mp (by omega)
    subst this
    simp [pop_copy_loop, fgets, to_int_max_line]
  | succ n ih =>
    rw [pop_copy_loop_eq]
    cases hf : fgets (to_int MAX_LINE_LENGTH) x with
    | none =>
      have hx : x = [] := by
        rw [to_int_max_line] at hf
        unfold fgets at hf
        cases x with
        | nil => rfl
        | cons b tl => simp at hf
      simp [hx]
    | some p =>
      obtain ⟨line, rest⟩ := p
      have hs := fgets_split _ _ _ _ hf
      have hr := fgets_max_line_consumes x line rest hf
      have hline : ∀ c ∈ line, c ≠ 0 := fun c hc => h0 c (by rw [← hs]; simp [hc])
      have hrest : ∀ c ∈ rest, c ≠ 0 := fun c hc => h0 c (by rw [← hs]; simp [hc])
      simp only [Bool.false_eq_true, if_false]
      rw [ih rest _ (by omega) hrest, cstr_eq_self line hline, List.append_assoc, hs]

/-- On a stream without NUL byte the copy loop as `queue_pop` starts it
writes what is left of the stream behind its first `fgets` read. -/
theorem pop_copy_loop_suffix (x : List Byte) (h0 : ∀ c ∈ x, c ≠ 0) :
    ∃ d, x = d ++ pop_copy_loop (x.length + 1) true x [] := by
  rw [pop_copy_loop_eq]
  cases hf : fgets (to_int MAX_LINE_LENGTH) x with
  | none => exact ⟨x, by simp⟩
  | some p =>
    obtain ⟨line, rest⟩ := p
    have hs := fgets_split _ _ _ _ hf
    have hrest : ∀ c ∈ rest, c ≠ 0 := fun c hc => h0 c (by rw [← hs]; simp [hc])
    refine ⟨line, ?_⟩
    simp only [if_true]
    rw [pop_copy_loop_nul_free rest.length rest [] (le_refl _) hrest]
    simp [hs]

theorem create_reading_json_ok_valid (buffer_size : Nat) (device_id : Option (List Byte))
    (r : Rendered) (unit : List Byte)
    (h : 0 ≤ (create_reading_json buffer_size device_id r unit).1) :
    validate_device_id device_id = 1 ∧ unit_invalid unit = false := by
  unfold create_reading_json at h
  by_cases h1 : validate_device_id device_id = 0
  · simp [h1] at h
  · by_cases h2 : unit_invalid unit = true
    · simp [h1, h2] at h
    · refine ⟨?_, by simpa using h2⟩
      rcases validate_device_id_zero_or_one device_id with h3 | h3
      · exact h3
      · exact absurd h3 h1

theorem unit_valid_no_newline (unit : List Byte) (h : unit_invalid unit = false) :
    ∀ c ∈ cstr unit, c ≠ 10 := by
  unfold unit_invalid at h
  have hk : ∀ t : String, (∀ c ∈ ascii t, c ≠ 10) → ∀ c ∈ ascii t, c ≠ 10 := fun _ h => h
  by_cases h1 : cstr unit = ascii "RI"
  · rw [h1]
    exact hk _ (by decide)
  · by_cases h2 : cstr unit = ascii "Brix"
    · rw [h2]
      exact hk _ (by decide)
    · simp [h1, h2] at h

/-- The text of a reading holds no newline byte when the device id passed
`validate_device_id`, the unit passed the unit check and the rendered
timestamp and numbers hold none. -/
theorem reading_json_no_newline (device_id : List Byte) (r : Rendered) (unit : List Byte)
    (hd : validate_device_id (some device_id) = 1) (hu : unit_invalid unit = false)
    (hts : ∀ c ∈ cstr r.timestamp, c ≠ 10) (hval : ∀ c ∈ cstr r.value, c ≠ 10)
    (htemp : ∀ c ∈ cstr r.temperature_c, c ≠ 10) :
    ∀ c ∈ reading_json device_id r unit, c ≠ 10 := by
  have hk : ∀ t : String, (∀ c ∈ ascii t, c ≠ 10) → ∀ c ∈ ascii t, c ≠ 10 := fun _ h => h
  have hid : ∀ c ∈ cstr device_id, c ≠ 10 :=
    fun c hc => (((validate_device_id_eq_one_iff device_id).mp hd).2 c hc).2.2.1
  have hun := unit_valid_no_newline unit hu
  intro c hc
  unfold reading_json at hc
  simp only [List.mem_append] at hc
  rcases hc with ((((((((((h | h) | h) | h) | h) | h) | h) | h) | h) | h) | h)
  · exact hk _ (by decide) c h
  · exact hid c h
  · exact hk _ (by decide) c h
  · exact hts c h
  · exact hk _ (by decide) c h
  · exact hval c h
  · exact hk _ (by decide) c h
  · exact hun c h
  · exact hk _ (by decide) c h
  · exact htemp c h
  · exact hk _ (by decide) c h

/-- Appending a line that fits the buffer to a queue file of such lines, or
to an absent file, makes `queue_count` grow by one. -/
theorem queue_count_append (ls : List (List Byte)) (tmp : Option (List Byte)) (s : List Byte)
    (hls : ∀ l ∈ ls, (∀ c ∈ l, c ≠ 10) ∧ l.length + 2 ≤ MAX_LINE_LENGTH)
    (hs : ∀ c ∈ s, c ≠ 0 ∧ c ≠ 10) (hlen : s.length + 2 ≤ MAX_LINE_LENGTH) :
    queue_count false (queue_append false ⟨some (file_of_lines ls), tmp⟩ s).2
        = queue_count false ⟨some (file_of_lines ls), tmp⟩ + 1
    ∧ queue_count false (queue_append false ⟨none, tmp⟩ s).2
        = queue_count false ⟨none, tmp⟩ + 1 := by
  have h0 : cstr s = s := cstr_eq_self s (fun c hc => (hs c hc).1)
  have hone : file_of_lines [s] = s ++ [10] := by simp [file_of_lines]
  have hall : ∀ l ∈ ls ++ [s], (∀ c ∈ l, c ≠ 10) ∧ l.length + 2 ≤ MAX_LINE_LENGTH := by
    intro l hl
    simp only [List.mem_append, List.mem_singleton] at hl
    rcases hl with hl | hl
    · exact hls l hl
    · rw [hl]
      exact ⟨fun c hc => (hs c hc).2, hlen⟩
  constructor
  · have hq : (queue_append false ⟨some (file_of_lines ls), tmp⟩ s).2
        = ⟨some (file_of_lines (ls ++ [s])), tmp⟩ := by
      simp [queue_append, h0, file_of_lines_append, hone]
    rw [hq]
    simp only [queue_count, Bool.false_eq_true, if_false]
    rw [count_loop_lines _ hall, count_loop_lines _ hls]
    simp
  · have hq : (queue_append false ⟨none, tmp⟩ s).2 = ⟨some (file_of_lines ([] ++ [s])), tmp⟩ := by
      simp [queue_append, h0, hone]
    rw [hq]
    simp only [queue_count, Bool.false_eq_true, if_false]
    rw [count_loop_lines _ (by simpa using hall s (by simp))]
    simp

theorem reads_from_fgets (x : List Byte) (room : Nat) :
    reads_from room x = reads_from 0 (fgets_read x room).2 := by
  induction x generalizing room with
  | nil => simp [fgets_read, reads_from]
  | cons b t ih =>
    cases room with
    | zero => simp [fgets_read]
    | succ k =>
      rw [reads_from, fgets_read]
      by_cases hb : b = 10
      · simp [hb]
      · simp only [if_neg hb]
        exact ih k

theorem reads_from_cons (b : Byte) (t : List Byte) :
    reads_from 0 (b :: t) = 1 + reads_from 0 (fgets_read (b :: t) 1023).2 := by
  rw [reads_from, fgets_read]
  by_cases hb : b = 10
  · simp [hb]
  · simp only [if_neg hb]
    rw [reads_from_fgets t 1022]

theorem fgets_max_line_cons (b : Byte) (t : List Byte) :
    fgets (to_int MAX_LINE_LENGTH) (b :: t) = some (fgets_read (b :: t) 1023) := by
  have hk : ((1024 : Int) - 1).toNat = 1023 := by decide
  rw [to_int_max_line]
  unfold fgets
  simp [hk]

/-- The loop of `queue_count` counts the reads that start in the file. -/
theorem count_loop_reads (n : Nat) (x : List Byte) (hn : x.length ≤ n) :
    count_loop (x.length + 1) x 0 = (reads_from 0 x : Int) := by
  induction n generalizing x with
  | zero =>
    have : x = [] := List.length_eq_zero.mp (by omega)
    subst this
    simp [count_loop, fgets, to_int_max_line, reads_from]
  | succ n ih =>
    cases x with
    | nil => simp [count_loop, fgets, to_int_max_line, reads_from]
    | cons b t =>
      have hf := fgets_max_line_cons b t
      have hr : (fgets_read (b :: t) 1023).2.length < (b :: t).length :=
        fgets_read_consumes b t 1022
      rw [count_loop_eq, hf]
      simp only
      rw [ih _ (by simp only [List.length_cons] at hn hr; omega), reads_from_cons]
      push_cast
      ring

theorem queue_count_reads (fs : FS) :
    queue_count false fs = (reads_from 0 (fs.queue.getD []) : Int) := by
  unfold queue_count
  cases hq : fs.queue with
  | none => simp [reads_from]
  | some content =>
    simp only [Bool.false_eq_true, if_false, Option.getD_some]
    exact count_loop_reads content.length content (le_refl _)

/-- A read in progress with more room starts no more reads behind it, and
at most one fewer. -/
theorem reads_from_mono (t : List Byte) (r r' : Nat) (h : r ≤ r') (hr : r' ≤ 1023) :
    reads_from r' t ≤ reads_from r t ∧ reads_from r t ≤ reads_from r' t + 1 := by
  induction t generalizing r r' with
  | nil => simp [reads_from]
  | cons b t ih =>
    cases r' with
    | zero =>
      have : r = 0 := by omega
      subst this
      omega
    | succ k' =>
      cases r with
      | zero =>
        rw [reads_from, reads_from]
        by_cases hb : b = 10
        · simp only [if_pos hb]
          omega
        · simp only [if_neg hb]
          have := ih k' 1022 (by omega) (by omega)
          omega
      | succ k =>
        rw [reads_from, reads_from]
        by_cases hb : b = 10
        · simp only [if_pos hb]
          omega
        · simp only [if_neg hb]
          exact ih k k' (by omega) (by omega)

theorem reads_from_le_zero (t : List Byte) (r : Nat) (hr : r ≤ 1023) :
    reads_from r t ≤ reads_from 0 t :=
  (reads_from_mono t 0 r (Nat.zero_le _) hr).1

theorem reads_from_nl_free (p y : List Byte) (r : Nat) (hp : ∀ c ∈ p, c ≠ 10)
    (hr : p.length ≤ r) :
    reads_from r (p ++ y) = reads_from (r - p.length) y := by
  induction p generalizing r with
  | nil => simp
  | cons b t ih =>
    have hb : b ≠ 10 := hp b (by simp)
    cases r with
    | zero => simp at hr
    | succ k =>
      rw [List.cons_append, reads_from, if_neg hb,
        ih k (fun c hc => hp c (by simp [hc])) (by simpa using hr)]
      simp

/-- A stretch without newline of at most 1023 bytes put before a stream
adds at most one read. -/
theorem reads_from_nl_free_le (p y : List Byte) (hp : ∀ c ∈ p, c ≠ 10)
    (hlen : p.length ≤ 1023) :
    reads_from 0 (p ++ y) ≤ 1 + reads_from 0 y := by
  cases p with
  | nil => simp
  | cons b t =>
    have hb : b ≠ 10 := hp b (by simp)
    have ht : t.length ≤ 1022 := by simpa using hlen
    rw [List.cons_append, reads_from, if_neg hb,
      reads_from_nl_free t y 1022 (fun c hc => hp c (by simp [hc])) ht]
    have := reads_from_le_zero y (1022 - t.length) (by omega)
    omega

/-- A whole line of at most 1022 bytes put before a stream adds one read. -/
theorem reads_from_line (l y : List Byte) (hl : ∀ c ∈ l, c ≠ 10) (hlen : l.length ≤ 1022) :
    reads_from 0 (l ++ [10] ++ y) = 1 + reads_from 0 y := by
  have hr := fgets_read_line l y 1023 hl (by omega)
  cases hx : l ++ 10 :: y with
  | nil => simp at hx
  | cons b t =>
    have : l ++ [10] ++ y = b :: t := by rw [← hx]; simp
    rw [this, reads_from_cons, ← hx, hr]

/-- What `fgets` stores holds a newline at its end or nowhere. -/
theorem fgets_read_shape (x : List Byte) (k : Nat) :
    (∀ c ∈ (fgets_read x k).1, c ≠ 10)
    ∨ ∃ l, (fgets_read x k).1 = l ++ [10] ∧ ∀ c ∈ l, c ≠ 10 := by
  induction x generalizing k with
  | nil => left; simp [fgets_read]
  | cons b t ih =>
    cases k with
    | zero => left; simp [fgets_read]
    | succ k =>
      rw [fgets_read]
      by_cases hb : b = 10
      · right
        exact ⟨[], by simp [hb], by simp⟩
      · simp only [if_neg hb]
        rcases ih k with h | ⟨l, h1, h2⟩
        · left
          intro c hc
          simp only [List.mem_cons] at hc
          rcases hc with hc | hc
          · rw [hc]; exact hb
          · exact h c hc
        · right
          refine ⟨b :: l, by simp [h1], ?_⟩
          intro c hc
          simp only [List.mem_cons] at hc
          rcases hc with hc | hc
          · rw [hc]; exact hb
          · exact h2 c hc

theorem cstr_line_shape (l : List Byte) (hl : ∀ c ∈ l, c ≠ 10) :
    cstr (l ++ [10]) = l ++ [10] ∨ ∀ c ∈ cstr (l ++ [10]), c ≠ 10 := by
  induction l with
  | nil => left; decide
  | cons b t ih =>
    have hb : b ≠ 10 := hl b (by simp)
    by_cases h0 : b = 0
    · right
      simp [cstr, h0]
    · have hc : cstr (b :: t ++ [10]) = b :: cstr (t ++ [10]) := by simp [cstr, h0]
      rcases ih (fun c hc => hl c (by simp [hc])) with h | h
      · left
        rw [hc, h]
        simp
      · right
        rw [hc]
        intro c hc'
        simp only [List.mem_cons] at hc'
        rcases hc' with hc' | hc'
        · rw [hc']; exact hb
        · exact h c hc'

theorem cstr_nl_free (p : List Byte) (hp : ∀ c ∈ p, c ≠ 10) : ∀ c ∈ cstr p, c ≠ 10 := by
  intro c hc
  exact hp c ((List.takeWhile_sublist _).subset hc)

/-- The string `fputs` writes for one read put before a stream adds at most
one read. -/
theorem reads_from_cstr_le (x y : List Byte) (k : Nat) (hk : k ≤ 1023) :
    reads_from 0 (cstr (fgets_read x k).1 ++ y) ≤ 1 + reads_from 0 y := by
  have hlen := fgets_read_length x k
  have hcl := cstr_length_le (fgets_read x k).1
  rcases fgets_read_shape x k with h | ⟨l, h1, h2⟩
  · exact reads_from_nl_free_le _ y (cstr_nl_free _ h) (by omega)
  · rw [h1] at hlen hcl ⊢
    rcases cstr_line_shape l h2 with h | h
    · rw [h, reads_from_line l y h2 (by simp at hlen; omega)]
    · exact reads_from_nl_free_le _ y h (by omega)

theorem pop_copy_loop_acc (fuel : Nat) (first : Bool) (x out : List Byte) :
    pop_copy_loop fuel first x out = out ++ pop_copy_loop fuel first x [] := by
  induction fuel generalizing first x out with
  | zero => simp [pop_copy_loop]
  | succ f ih =>
    rw [pop_copy_loop]
    conv => rhs; rw [pop_copy_loop]
    cases hf : fgets (to_int MAX_LINE_LENGTH) x with
    | none => simp
    | some p =>
      obtain ⟨line, rest⟩ := p
      simp only
      cases first with
      | true => simp only [if_true]; exact ih false rest out
      | false =>
        simp only [Bool.false_eq_true, if_false]
        rw [ih false rest (out ++ cstr line), ih false rest ([] ++ cstr line)]
        simp

theorem pop_copy_loop_length (fuel : Nat) (first : Bool) (x out : List Byte) :
    (pop_copy_loop fuel first x out).length ≤ out.length + x.length := by
  induction fuel generalizing first x out with
  | zero => simp [pop_copy_loop]
  | succ f ih =>
    rw [pop_copy_loop]
    cases hf : fgets (to_int MAX_LINE_LENGTH) x with
    | none => simp
    | some p =>
      obtain ⟨line, rest⟩ := p
      have hs := congrArg List.length (fgets_split _ _ _ _ hf)
      have hc := cstr_length_le line
      simp only [List.length_append] at hs
      simp only
      cases first with
      | true =>
        simp only [if_true]
        have := ih false rest out
        omega
      | false =>
        simp only [Bool.false_eq_true, if_false]
        have := ih false rest (out ++ cstr line)
        simp only [List.length_append] at this
        omega

/-- What the copy loop writes, `first` cleared, splits into no more reads
than its input. -/
theorem pop_copy_loop_reads (n : Nat) (x : List Byte) (hn : x.length ≤ n) :
    reads_from 0 (pop_copy_loop (x.length + 1) false x []) ≤ reads_from 0 x := by
  induction n generalizing x with
  | zero =>
    have : x = [] := List.length_eq_zero.mp (by omega)
    subst this
    simp [pop_copy_loop, fgets, to_int_max_line]
  | succ n ih =>
    cases x with
    | nil => simp [pop_copy_loop, fgets, to_int_max_line]
    | cons b t =>
      have hr : (fgets_read (b :: t) 1023).2.length < (b :: t).length :=
        fgets_read_consumes b t 1022
      have hrec := ih (fgets_read (b :: t) 1023).2
        (by simp only [List.length_cons] at hn hr; omega)
      rw [pop_copy_loop_eq, fgets_max_line_cons]
      simp only [Bool.false_eq_true, if_false, List.nil_append]
      rw [pop_copy_loop_acc, reads_from_cons]
      have := reads_from_cstr_le (b :: t) (pop_copy_loop
        ((fgets_read (b :: t) 1023).2.length + 1) false (fgets_read (b :: t) 1023).2 []) 1023
        (le_refl _)
      omega

/-- What the copy loop of `queue_pop` writes splits into no more reads than
its input. -/
theorem pop_copy_loop_reads_first (x : List Byte) :
    reads_from 0 (pop_copy_loop (x.length + 1) true x []) ≤ reads_from 0 x := by
  cases x with
  | nil => simp [pop_copy_loop, fgets, to_int_max_line]
  | cons b t =>
    rw [pop_copy_loop_eq, fgets_max_line_cons]
    simp only [if_true]
    rw [reads_from_cons]
    have := pop_copy_loop_reads _ (fgets_read (b :: t) 1023).2 (le_refl _)
    omega

/-- A `queue_pop` with the `MAX_LINE_LENGTH` buffer that returns a positive
number has done the rename: the queue file is shorter and splits into
fewer reads than before, and the temporary file is gone. -/
theorem queue_pop_pos (e : PopFaults) (b : Byte) (t : List Byte) (tmp : Option (List Byte))
    (h : 0 < (queue_pop e ⟨some (b :: t), tmp⟩ MAX_LINE_LENGTH).ret) :
    ∃ written, (queue_pop e ⟨some (b :: t), tmp⟩ MAX_LINE_LENGTH).fs = ⟨some written, none⟩
      ∧ written.length < (b :: t).length
      ∧ reads_from 0 written + 1 ≤ reads_from 0 (b :: t) := by
  unfold queue_pop at h ⊢
  simp only [fgets_max_line_cons] at h ⊢
  by_cases h1 : e.open_fails = true
  · simp [h1] at h
  · by_cases h2 : e.tmp_open_fails = true
    · simp [h1, h2] at h
    · by_cases h3 : e.rename_fails = true
      · simp [h1, h2, h3] at h
      · simp only [h1, h2, h3, Bool.false_eq_true, if_false]
        refine ⟨_, rfl, ?_, ?_⟩
        · have h4 := pop_copy_loop_length ((fgets_read (b :: t) 1023).2.length + 1) true
            (fgets_read (b :: t) 1023).2 []
          have h5 : (fgets_read (b :: t) 1023).2.length < (b :: t).length :=
            fgets_read_consumes b t 1022
          simp only [List.length_nil] at h4
          omega
        · rw [reads_from_cons]
          have := pop_copy_loop_reads_first (fgets_read (b :: t) 1023).2
          omega

theorem queue_has_entries_one (open_fails : Bool) (fs : FS)
    (h : queue_has_entries open_fails fs = 1) :
    ∃ b t, fs.queue = some (b :: t) := by
  unfold queue_has_entries at h
  cases open_fails with
  | true => simp at h
  | false =>
    simp only [Bool.false_eq_true, if_false] at h
    cases hq : fs.queue with
    | none => rw [hq] at h; simp at h
    | some content =>
      cases content with
      | nil => rw [hq] at h; simp at h
      | cons b t => exact ⟨b, t, rfl⟩

theorem posts_append (a b : List Event) : posts (a ++ b) = posts a ++ posts b := by
  induction a with
  | nil => simp [posts]
  | cons e t ih => cases e <;> simp [posts, ih]

/-- The loop of `flush_queue` with more fuel than the queue file has bytes:
it ends; it returns the start value of `flushed` plus the number of
transport calls of this run answered with 0; and it makes no more transport
calls than the queue file splits into reads. -/
theorem flush_loop_spec (post : Transport) (io : Nat → FlushFaults) (fuel : Nat) :
    ∀ (i : Nat) (flushed : Int) (w : World), (w.fs.queue.getD []).length < fuel →
      ∃ bodies w', flush_loop post io fuel i flushed w
          = some (flushed + (successes post (posts w.trace).length bodies : Int), w')
        ∧ posts w'.trace = posts w.trace ++ bodies
        ∧ bodies.length ≤ reads_from 0 (w.fs.queue.getD []) := by
  induction fuel with
  | zero => intro i flushed w h; omega
  | succ f ih =>
    intro i flushed w h
    obtain ⟨fs, trace⟩ := w
    rw [flush_loop]
    by_cases hh : queue_has_entries (io i).has_entries_open_fails fs = 1
    · obtain ⟨b, t, hq⟩ := queue_has_entries_one _ _ hh
      obtain ⟨q, tmp⟩ := fs
      simp only at hq
      subst hq
      simp only [hh, if_true]
      have hposts : posts (trace ++ [Event.has_entries] ++ [Event.pop]) = posts trace := by
        simp [posts_append, posts]
      generalize hrdef : queue_pop (io i).pop ⟨some (b :: t), tmp⟩ MAX_LINE_LENGTH = r
      by_cases hr : r.ret ≤ 0
      · refine ⟨[], ⟨r.fs, trace ++ [Event.has_entries] ++ [Event.pop]⟩, ?_, ?_, by simp⟩
        · simp only [hr, if_true, successes]
          simp
        · simp [posts_append, posts]
      · simp only [hr, if_false]
        obtain ⟨written, hw, hlen, hreads⟩ := queue_pop_pos (io i).pop b t tmp
          (by rw [hrdef]; omega)
        rw [hrdef] at hw
        simp only [hposts]
        simp only [Option.getD_some, List.length_cons] at h hlen
        have hposts3 : posts (trace ++ [Event.has_entries] ++ [Event.pop] ++
            [Event.post (r.buffer.getD [])]) = posts trace ++ [r.buffer.getD []] := by
          simp [posts_append, posts]
        by_cases hp : post (posts trace).length (r.buffer.getD []) = 0
        · simp only [hp, if_true]
          obtain ⟨bodies, w', h1, h2, h3⟩ := ih (i + 1) (flushed + 1)
            ⟨r.fs, trace ++ [Event.has_entries] ++ [Event.pop] ++
                [Event.post (r.buffer.getD [])]⟩
            (by rw [hw]; simp only [Option.getD_some]; omega)
          simp only [hposts3, List.length_append, List.length_singleton] at h1 h2
          refine ⟨(r.buffer.getD []) :: bodies, w', ?_, ?_, ?_⟩
          · rw [h1]
            simp only [successes, hp, if_true]
            push_cast
            congr 2
            ring
          · rw [h2]
            simp
          · rw [hw] at h3
            simp only [Option.getD_some, List.length_cons] at h3 ⊢
            omega
        · simp only [hp, if_false]
          refine ⟨[r.buffer.getD []],
            ⟨(queue_append (io i).append_open_fails r.fs (r.buffer.getD [])).2,
              trace ++ [Event.has_entries] ++ [Event.pop] ++ [Event.post (r.buffer.getD [])]
                ++ [Event.append (r.buffer.getD [])]⟩, ?_, ?_, ?_⟩
          · simp [successes, hp]
          · simp [posts_append, posts]
          · simp only [Option.getD_some, List.length_singleton]
            omega
    · simp only [hh, if_false]
      refine ⟨[], ⟨fs, trace ++ [Event.has_entries]⟩, ?_, ?_, by simp⟩
      · simp [successes]
      · simp [posts_append, posts]

/-- More fuel than the queue file has bytes never changes the result of the
loop of `flush_queue`. -/
theorem flush_loop_fuel (post : Transport) (io : Nat → FlushFaults) (fuel : Nat) :
    ∀ (i : Nat) (flushed : Int) (w : World), (w.fs.queue.getD []).length < fuel →
      flush_loop post io (fuel + 1) i flushed w = flush_loop post io fuel i flushed w := by
  induction fuel with
  | zero => intro i flushed w h; omega
  | succ f ih =>
    intro i flushed w h
    obtain ⟨fs, trace⟩ := w
    rw [flush_loop]
    conv => rhs; rw [flush_loop]
    by_cases hh : queue_has_entries (io i).has_entries_open_fails fs = 1
    · obtain ⟨b, t, hq⟩ := queue_has_entries_one _ _ hh
      obtain ⟨q, tmp⟩ := fs
      simp only at hq
      subst hq
      simp only [hh, if_true]
      by_cases hr : (queue_pop (io i).pop ⟨some (b :: t), tmp⟩ MAX_LINE_LENGTH).ret ≤ 0
      · simp only [hr, if_true]
      · simp only [hr, if_false]
        obtain ⟨written, hw, hlen, _⟩ := queue_pop_pos (io i).pop b t tmp (by omega)
        simp only [Option.getD_some, List.length_cons] at h
        by_cases hp : post (posts (trace ++ [Event.has_entries] ++ [Event.pop])).length
            ((queue_pop (io i).pop ⟨some (b :: t), tmp⟩ MAX_LINE_LENGTH).buffer.getD []) = 0
        · simp only [hp, if_true]
          exact ih _ _ _
            (by rw [hw]; simp only [Option.getD_some, List.length_cons] at hlen ⊢; omega)
        · simp only [hp, if_false]
    · simp only [hh, if_false]

theorem flush_loop_fuel_ge (post : Transport) (io : Nat → FlushFaults) (fuel : Nat)
    (w : World) (h : (w.fs.queue.getD []).length < fuel) :
    flush_loop post io fuel 0 0 w = flush_queue post io w := by
  unfold flush_queue
  induction fuel with
  | zero => omega
  | succ f ih =>
    by_cases hf : (w.fs.queue.getD []).length < f
    · rw [flush_loop_fuel post io f 0 0 w hf, ih hf]
    · have : f = (w.fs.queue.getD []).length := by omega
      rw [this]

theorem successes_le (post : Transport) (k : Nat) (bodies : List (List Byte)) :
    successes post k bodies ≤ bodies.length := by
  induction bodies generalizing k with
  | nil => simp [successes]
  | cons b bs ih =>
    have := ih (k + 1)
    simp only [successes, List.length_cons]
    split <;> omega

/-- The run of `flush_queue`: it ends, returns the number of transport
calls answered with 0, and makes no more transport calls than
`queue_count` counts entries at the start. -/
theorem flush_queue_spec (post : Transport) (io : Nat → FlushFaults) (w : World) :
    ∃ bodies w', flush_queue post io w
        = some ((successes post (posts w.trace).length bodies : Int), w')
      ∧ posts w'.trace = posts w.trace ++ bodies
      ∧ (bodies.length : Int) ≤ queue_count false w.fs := by
  obtain ⟨bodies, w', h1, h2, h3⟩ :=
    flush_loop_spec post io ((w.fs.queue.getD []).length + 1) 0 0 w (by omega)
  refine ⟨bodies, w', ?_, h2, ?_⟩
  · unfold flush_queue
    rw [h1]
    simp
  · rw [queue_count_reads]
    exact_mod_cast h3

theorem queue_count_counts_lines_aux (ls : List (List Byte)) (tmp : Option (List Byte))
    (h : ∀ l ∈ ls, (∀ c ∈ l, c ≠ 10) ∧ l.length + 2 ≤ MAX_LINE_LENGTH) :
    queue_count false ⟨some (file_of_lines ls), tmp⟩ = (ls.length : Int) := by
  simp only [queue_count, Bool.false_eq_true, if_false]
  exact count_loop_lines ls h

/-- A stretch without newline that fills the `MAX_LINE_LENGTH` buffer is
what one `fgets` stores. -/
theorem fgets_full_chunk (p rest : List Byte) (hp : ∀ c ∈ p, c ≠ 10)
    (hlen : p.length = 1023) :
    fgets (to_int MAX_LINE_LENGTH) (p ++ rest) = some (p, rest) := by
  have hr := fgets_read_chunk p rest 1023 hp (by omega) (Or.inl hlen)
  cases hx : p ++ rest with
  | nil =>
    have hp0 : p = [] := (List.append_eq_nil.mp hx).1
    rw [hp0] at hlen
    simp at hlen
  | cons b t =>
    rw [fgets_max_line_cons, ← hx, hr]

/-- What `queue_pop` does on a queue file that starts with two full reads
of one oversized line: it returns the first 1023 bytes as a record, drops
the next 1023 bytes, and leaves what follows them. -/
theorem queue_pop_two_chunks (p1 p2 rest : List Byte) (tmp : Option (List Byte))
    (h1 : ∀ c ∈ p1, c ≠ 0 ∧ c ≠ 10) (hl1 : p1.length = 1023)
    (h2 : ∀ c ∈ p2, c ≠ 10) (hl2 : p2.length = 1023)
    (hrest : ∀ c ∈ rest, c ≠ 0) :
    queue_pop PopFaults.none ⟨some (p1 ++ (p2 ++ rest)), tmp⟩ MAX_LINE_LENGTH
      = ⟨1023, some p1, ⟨some rest, none⟩⟩ := by
  have hf1 := fgets_full_chunk p1 (p2 ++ rest) (fun c hc => (h1 c hc).2) hl1
  have hf2 := fgets_full_chunk p2 rest h2 hl2
  have hw : pop_copy_loop ((p2 ++ rest).length + 1) true (p2 ++ rest) [] = rest := by
    rw [pop_copy_loop_eq, hf2]
    simp only [if_true]
    rw [pop_copy_loop_nul_free rest.length rest [] (le_refl _) hrest]
    simp
  have hlen : p1.length < 2 ^ 31 := by omega
  unfold queue_pop
  simp only [PopFaults.none, Bool.false_eq_true, if_false, hf1, strip_newline_nl_free p1 h1,
    hw, to_int_of_lt _ hlen, hl1]
  rfl

theorem flush_loop_continue (post : Transport) (io : Nat → FlushFaults) (fuel i : Nat)
    (flushed : Int) (w : World)
    (hh : queue_has_entries (io i).has_entries_open_fails w.fs = 1)
    (hr : 0 < (queue_pop (io i).pop w.fs MAX_LINE_LENGTH).ret)
    (hp : post (posts w.trace).length
      ((queue_pop (io i).pop w.fs MAX_LINE_LENGTH).buffer.getD []) = 0) :
    flush_loop post io (fuel + 1) i flushed w
      = flush_loop post io fuel (i + 1) (flushed + 1)
          ⟨(queue_pop (io i).pop w.fs MAX_LINE_LENGTH).fs,
            w.trace ++ [Event.has_entries] ++ [Event.pop] ++
              [Event.post ((queue_pop (io i).pop w.fs MAX_LINE_LENGTH).buffer.getD [])]⟩ := by
  have hposts : posts (w.trace ++ [Event.has_entries] ++ [Event.pop]) = posts w.trace := by
    simp [posts_append, posts]
  have hr' : ¬ (queue_pop (io i).pop w.fs MAX_LINE_LENGTH).ret ≤ 0 := by omega
  rw [flush_loop]
  simp only [hh, if_true, hr', if_false, hposts, hp]

theorem flush_loop_stop (post : Transport) (io : Nat → FlushFaults) (fuel i : Nat)
    (flushed : Int) (w : World)
    (hh : queue_has_entries (io i).has_entries_open_fails w.fs ≠ 1) :
    flush_loop post io (fuel + 1) i flushed w
      = some (flushed, ⟨w.fs, w.trace ++ [Event.has_entries]⟩) := by
  rw [flush_loop]
  simp only [hh, if_false]

/-- The flush of a queue file made of one line of more than 2046 bytes, the
transport succeeding and no system call failing: two transport calls, with
the first 1023 bytes and with the end of the line, and the result 2. -/
theorem flush_queue_long_line (p1 p2 p3 : List Byte) (tmp : Option (List Byte))
    (trace : List Event)
    (h1 : ∀ c ∈ p1, c ≠ 0 ∧ c ≠ 10) (hl1 : p1.length = 1023)
    (h2 : ∀ c ∈ p2, c ≠ 10) (hl2 : p2.length = 1023)
    (h3 : line_ok p3) (hne : p3 ≠ []) :
    flush_queue transport_ok no_faults
        ⟨⟨some (file_of_lines [p1 ++ (p2 ++ p3)]), tmp⟩, trace⟩
      = some (2, ⟨⟨some [], none⟩,
          trace ++ [Event.has_entries] ++ [Event.pop] ++ [Event.post p1]
            ++ [Event.has_entries] ++ [Event.pop] ++ [Event.post p3]
            ++ [Event.has_entries]⟩) := by
  have hfile : file_of_lines [p1 ++ (p2 ++ p3)] = p1 ++ (p2 ++ file_of_lines [p3]) := by
    simp [file_of_lines]
  have hrest : ∀ c ∈ file_of_lines [p3], c ≠ 0 := by
    intro c hc
    simp only [file_of_lines, List.append_nil, List.mem_append, List.mem_singleton] at hc
    rcases hc with hc | hc
    · exact (h3.1 c hc).1
    · rw [hc]; decide
  have hpop1 := queue_pop_two_chunks p1 p2 (file_of_lines [p3]) tmp h1 hl1 h2 hl2 hrest
  have hpop2 := queue_pop_lines p3 [] none h3 (by simp)
  have hp3 : 0 < p3.length := List.length_pos.mpr hne
  have hL : (p1 ++ (p2 ++ file_of_lines [p3])).length
      = ((file_of_lines [p3]).length + 2043) + 1 + 1 + 1 := by
    simp only [List.length_append, hl1, hl2]
    omega
  have hio : ∀ i, no_faults i = ⟨false, PopFaults.none, false⟩ := fun _ => rfl
  have hh0 : queue_has_entries (no_faults 0).has_entries_open_fails
      (⟨⟨some (p1 ++ (p2 ++ file_of_lines [p3])), tmp⟩, trace⟩ : World).fs = 1 := by
    cases hx : p1 ++ (p2 ++ file_of_lines [p3]) with
    | nil =>
      have := congrArg List.length hx
      rw [hL] at this
      simp at this
    | cons b t => rfl
  have hh1 : queue_has_entries (no_faults (0 + 1)).has_entries_open_fails
      (⟨⟨some (file_of_lines [p3]), none⟩,
        trace ++ [Event.has_entries] ++ [Event.pop] ++ [Event.post p1]⟩ : World).fs = 1 := by
    cases hx : file_of_lines [p3] with
    | nil => simp [file_of_lines] at hx
    | cons b t => rfl
  have hstep0 := flush_loop_continue transport_ok no_faults
    ((file_of_lines [p3]).length + 2043 + 1 + 1 + 1) 0 0
    ⟨⟨some (p1 ++ (p2 ++ file_of_lines [p3])), tmp⟩, trace⟩ hh0
    (by rw [hio]; simp only []; rw [hpop1]; show (0 : Int) < 1023; decide) rfl
  rw [hio] at hstep0
  simp only [hpop1, Option.getD_some] at hstep0
  have hstep1 := flush_loop_continue transport_ok no_faults
    ((file_of_lines [p3]).length + 2043 + 1 + 1) (0 + 1) (0 + 1)
    ⟨⟨some (file_of_lines [p3]), none⟩,
      trace ++ [Event.has_entries] ++ [Event.pop] ++ [Event.post p1]⟩ hh1
    (by rw [hio]; simp only []; rw [hpop2]; show (0 : Int) < (p3.length : Int)
        exact_mod_cast hp3) rfl
  rw [hio] at hstep1
  simp only [hpop2, Option.getD_some] at hstep1
  have hstep2 := flush_loop_stop transport_ok no_faults
    ((file_of_lines [p3]).length + 2043 + 1) (0 + 1 + 1) (0 + 1 + 1)
    ⟨⟨some (file_of_lines (List.drop 1 [])), none⟩,
      trace ++ [Event.has_entries] ++ [Event.pop] ++ [Event.post p1]
        ++ [Event.has_entries] ++ [Event.pop] ++ [Event.post p3]⟩
    (by rw [hio]; simp [queue_has_entries, file_of_lines])
  unfold flush_queue
  simp only [hfile, Option.getD_some, hL]
  rw [hstep0, hstep1, hstep2]
  simp [file_of_lines]

/-! ## The claims -/

set_option maxRecDepth 100000

/-- C1 (FIFO order) fails on the code for two records. From an absent queue
file, `queue_append("a")`, `queue_append("b")` and then two pops with a
`MAX_LINE_LENGTH` buffer: the first pop returns `"a"` and leaves a
zero-byte file, the second returns 0 with nothing stored. The record `"b"`
is never returned. -/
theorem fifo_second_record_lost :
    pop_seq MAX_LINE_LENGTH [PopFaults.none, PopFaults.none]
        (append_all ⟨none, none⟩ [ascii "a", ascii "b"])
      = ([(1, some (ascii "a")), (0, none)], ⟨some [], none⟩)
    ∧ (pop_seq MAX_LINE_LENGTH [PopFaults.none, PopFaults.none]
        (append_all ⟨none, none⟩ [ascii "a", ascii "b"])).1
      ≠ [(1, some (ascii "a")), (1, some (ascii "b"))] := by
  decide

/-- C2 (pop removes exactly the head) fails on the code. On the queue file
with the lines `"a"`, `"b"`, `"c"`, a successful `queue_pop` returns 1 with
`"a"` in the buffer, and the file afterwards holds the line `"c"` alone,
not the lines `"b"`, `"c"`: the copy loop skips the first line it reads,
which is the second line of the file. -/
theorem queue_pop_drops_second_line :
    queue_pop PopFaults.none
        ⟨some (file_of_lines [ascii "a", ascii "b", ascii "c"]), none⟩ MAX_LINE_LENGTH
      = ⟨1, some (ascii "a"), ⟨some (file_of_lines [ascii "c"]), none⟩⟩
    ∧ file_of_lines [ascii "c"] ≠ file_of_lines [ascii "b", ascii "c"] := by
  decide

/-- C3 (flush stop-on-failure) fails on the code in its last part. With the
queue `[DEV1, DEV2]` and a transport that fails on the `DEV1` record,
`flush_queue` returns 0 and calls the transport once, with the `DEV1`
record; but the queue file afterwards holds the `DEV1` record alone, not
`[DEV2, DEV1]`: the pop has dropped the `DEV2` record. -/
theorem flush_failure_loses_second_record :
    (flush_queue (transport_failing_on DEV1_record) no_faults
        ⟨⟨some (file_of_lines [DEV1_record, DEV2_record]), none⟩, []⟩).map
        (fun p => (p.1, posts p.2.trace, p.2.fs.queue))
      = some (0, [DEV1_record], some (file_of_lines [DEV1_record]))
    ∧ file_of_lines [DEV1_record] ≠ file_of_lines [DEV2_record, DEV1_record] := by
  decide

/-- C4 (end-to-end flush) fails on the code. With the queue `[DEV1, DEV2]`
and a transport that always succeeds, `flush_queue` returns 1, not 2, and
hands the `DEV1` record alone to the transport; the queue is empty
afterwards (`queue_has_entries` returns 0) because the pop of the `DEV1`
record has dropped the `DEV2` record. -/
theorem flush_two_records_sends_one :
    (flush_queue transport_ok no_faults
        ⟨⟨some (file_of_lines [DEV1_record, DEV2_record]), none⟩, []⟩).map
        (fun p => (p.1, posts p.2.trace, queue_has_entries false p.2.fs))
      = some (1, [DEV1_record], 0) := by
  decide

/-- C5 (empty-queue idempotence). When the queue file is absent, or has zero
bytes and the buffer is not the one-byte buffer, every `queue_pop` whose
`fopen` does not fail for a reason other than `ENOENT` returns 0 with
nothing stored and leaves both files exactly as they were (no temporary
file appears); so any number of pops in a row all return 0. -/
theorem queue_pop_empty_idempotent (buffer_size : Nat) (es : List PopFaults) (fs : FS)
    (hopen : ∀ e ∈ es, e.open_fails = false)
    (hempty : fs.queue = none ∨ (fs.queue = some [] ∧ to_int buffer_size ≠ 1)) :
    pop_seq buffer_size es fs = (es.map (fun _ => ((0 : Int), none)), fs) := by
  induction es with
  | nil => simp [pop_seq]
  | cons e es ih =>
    have h1 := queue_pop_of_empty e fs buffer_size (hopen e (by simp)) hempty
    have h2 := ih (fun e he => hopen e (by simp [he]))
    simp only [pop_seq, h1, h2, List.map_cons]

/-- The C5 theorem at three pops of a zero-byte file and two of an absent one. -/
theorem queue_pop_empty_idempotent_witness :
    pop_seq 1024 [PopFaults.none, ⟨false, true, true, true⟩, PopFaults.none] ⟨some [], none⟩
        = ([(0, none), (0, none), (0, none)], ⟨some [], none⟩)
      ∧ pop_seq 1024 [PopFaults.none, PopFaults.none] ⟨none, none⟩
        = ([(0, none), (0, none)], ⟨none, none⟩) :=
  ⟨queue_pop_empty_idempotent 1024 [PopFaults.none, ⟨false, true, true, true⟩, PopFaults.none]
      ⟨some [], none⟩ (by decide) (Or.inr ⟨rfl, by decide⟩),
   queue_pop_empty_idempotent 1024 [PopFaults.none, PopFaults.none]
      ⟨none, none⟩ (by decide) (Or.inl rfl)⟩

/-- C6 (atomicity of pop). For every content of the queue file, every
buffer size and every combination of system call outcomes: when `queue_pop`
returns -1, or the temporary file cannot be created, or the rename fails,
the queue file after the call is what it was before the call. So only a
completed rename changes the queue file. -/
theorem queue_pop_failure_keeps_queue (e : PopFaults) (fs : FS) (buffer_size : Nat)
    (h : (queue_pop e fs buffer_size).ret = -1 ∨ e.tmp_open_fails = true
      ∨ e.rename_fails = true) :
    (queue_pop e fs buffer_size).fs.queue = fs.queue := by
  unfold queue_pop at h ⊢
  by_cases h1 : e.open_fails = true
  · simp [h1]
  · simp only [h1, Bool.false_eq_true, if_false] at h ⊢
    cases hq : fs.queue with
    | none => simp [hq]
    | some content =>
      simp only [hq] at h ⊢
      cases hf : fgets (to_int buffer_size) content with
      | none => simp [hq]
      | some p =>
        obtain ⟨raw, rest⟩ := p
        simp only [hf] at h ⊢
        by_cases h2 : e.tmp_open_fails = true
        · simp [h2, hq]
        · by_cases h3 : e.rename_fails = true
          · simp [h2, h3, hq]
          · exfalso
            simp only [h2, h3, Bool.false_eq_true, if_false, or_false] at h
            have hlen := fgets_length _ _ _ _ hf
            have hb := to_int_lt buffer_size
            have hs := strip_newline_length_le raw
            have hlt : (strip_newline raw).length < 2 ^ 31 := by
              have : ((strip_newline raw).length : Int) < 2 ^ 31 := by
                have : ((strip_newline raw).length : Int) ≤ (raw.length : Int) := by
                  exact_mod_cast hs
                omega
              exact_mod_cast this
            rw [to_int_of_lt _ hlt] at h
            omega

/-- The C6 theorem at a three-line file with a failing rename. -/
theorem queue_pop_failure_keeps_queue_witness :
    (queue_pop ⟨false, false, true, false⟩
        ⟨some (file_of_lines [ascii "a", ascii "b", ascii "c"]), none⟩ 1024).fs.queue
      = some (file_of_lines [ascii "a", ascii "b", ascii "c"]) :=
  queue_pop_failure_keeps_queue ⟨false, false, true, false⟩
    ⟨some (file_of_lines [ascii "a", ascii "b", ascii "c"]), none⟩ 1024 (Or.inr (Or.inr rfl))

/-- C7 as stated fails at the empty string: the code accepts it, and it is
not non-empty. -/
theorem validate_device_id_accepts_empty :
    validate_device_id (some []) = 1
    ∧ ¬ (validate_device_id (some []) = 1 ↔ device_id_spec []) := by
  refine ⟨by decide, fun h => ?_⟩
  exact (h.mp (by decide)).1 rfl

/-- C7 (device-id validation, amended). For every non-NULL string argument,
whose C string is `cstr s`, `validate_device_id` returns 1 if and only if
the string is at most 255 bytes long and contains none of the bytes
double-quote, backslash, newline, carriage-return, tab; otherwise it
returns 0. The NULL pointer is rejected. Emptiness is not tested. -/
theorem validate_device_id_accepts_iff :
    validate_device_id none = 0 ∧
    ∀ s : List Byte,
      (validate_device_id (some s) = 1 ↔
        ((cstr s).length ≤ 255 ∧
          ∀ c ∈ cstr s, c ≠ 34 ∧ c ≠ 92 ∧ c ≠ 10 ∧ c ≠ 13 ∧ c ≠ 9))
      ∧ (validate_device_id (some s) ≠ 1 → validate_device_id (some s) = 0) := by
  refine ⟨rfl, fun s => ⟨validate_device_id_eq_one_iff s, fun h => ?_⟩⟩
  rcases validate_device_id_zero_or_one (some s) with h1 | h1
  · exact absurd h1 h
  · exact h1

/-- C10 (append is a pure add-to-end). For every state of the files and
every C string `s`, a `queue_append(s)` that returns 0 leaves the queue file
with its previous content (empty if it was absent) followed by `s` and one
newline; every byte stored before is at its position; the temporary file is
untouched. -/
theorem queue_append_adds_at_end (open_fails : Bool) (fs : FS) (s : List Byte)
    (h0 : ∀ c ∈ s, c ≠ 0)
    (hok : (queue_append open_fails fs s).1 = 0) :
    (queue_append open_fails fs s).2.queue = some (fs.queue.getD [] ++ s ++ [10])
    ∧ (queue_append open_fails fs s).2.tmp = fs.tmp
    ∧ ∀ i, i < (fs.queue.getD []).length →
        ((queue_append open_fails fs s).2.queue.getD [])[i]? = (fs.queue.getD [])[i]? := by
  unfold queue_append at hok ⊢
  cases open_fails with
  | true => simp at hok
  | false =>
    simp only [Bool.false_eq_true, if_false, cstr_eq_self s h0, Option.getD_some, true_and]
    intro i hi
    rw [List.append_assoc, List.getElem?_append_left hi]

/-- The C10 theorem at an absent file and at a one-line file. -/
theorem queue_append_adds_at_end_witness :
    (queue_append false ⟨none, none⟩ (ascii "ab")).2.queue = some (ascii "ab\n")
    ∧ (queue_append false ⟨some (ascii "ab\n"), none⟩ (ascii "cd")).2.queue
        = some (ascii "ab\ncd\n") :=
  ⟨(queue_append_adds_at_end false ⟨none, none⟩ (ascii "ab") (by decide) rfl).1,
   (queue_append_adds_at_end false ⟨some (ascii "ab\n"), none⟩ (ascii "cd") (by decide) rfl).1⟩

/-- C8 (validation rejects before any activity). When the device id holds
one of the five forbidden bytes, or is longer than 255 bytes, or the unit is
neither `RI` nor `Brix`: the submission path of `main` exits with code 1,
`send_reading` returns -1, both leaving the world as it was (no queue call,
no transport call, the files untouched), and `create_reading_json` returns
-1 without storing anything. This holds for every transport, every outcome
of the system calls and every state of the queue. -/
theorem invalid_input_rejected_first (post : Transport) (io : Nat → FlushFaults)
    (append_open_fails : Bool) (w : World) (r : Rendered) (device_id unit : List Byte)
    (buffer_size : Nat)
    (h : (∃ c ∈ cstr device_id, c = 34 ∨ c = 92 ∨ c = 10 ∨ c = 13 ∨ c = 9)
      ∨ 255 < strlen device_id
      ∨ (cstr unit ≠ ascii "RI" ∧ cstr unit ≠ ascii "Brix")) :
    main post io append_open_fails ⟨some device_id, some unit, false, r⟩ w = some (1, w)
    ∧ send_reading post append_open_fails w (some device_id) r unit = (-1, w)
    ∧ create_reading_json buffer_size (some device_id) r unit = (-1, none) := by
  have hv : validate_device_id (some device_id) = 0 ∨ unit_invalid unit = true := by
    rcases h with h | h | h
    · exact Or.inl (validate_device_id_rejects device_id (Or.inl h))
    · exact Or.inl (validate_device_id_rejects device_id (Or.inr h))
    · right
      simp [unit_invalid, h.1, h.2]
  have hc : ∀ n, create_reading_json n (some device_id) r unit = (-1, none) := by
    intro n
    unfold create_reading_json
    rcases hv with hv | hv
    · simp [hv]
    · simp [hv]
  refine ⟨?_, ?_, hc buffer_size⟩
  · unfold main
    rcases hv with hv | hv
    · simp [hv]
    · simp [hv]
  · unfold send_reading
    simp [hc 512]

/-- The C8 theorem at the device id with a double quote, at the device id of
300 bytes and at the unit in the wrong case, with one record queued. -/
theorem invalid_input_rejected_first_witness :
    (main transport_ok no_faults false ⟨some (ascii "a\"b"), some (ascii "RI"), false, sample_rendered⟩
        ⟨⟨some (file_of_lines [DEV1_record]), none⟩, []⟩
      = some (1, ⟨⟨some (file_of_lines [DEV1_record]), none⟩, []⟩))
    ∧ (main transport_ok no_faults false
        ⟨some (List.replicate 300 65), some (ascii "RI"), false, sample_rendered⟩
        ⟨⟨some (file_of_lines [DEV1_record]), none⟩, []⟩
      = some (1, ⟨⟨some (file_of_lines [DEV1_record]), none⟩, []⟩))
    ∧ (main transport_ok no_faults false
        ⟨some (ascii "DEV1"), some (ascii "brix"), false, sample_rendered⟩
        ⟨⟨some (file_of_lines [DEV1_record]), none⟩, []⟩
      = some (1, ⟨⟨some (file_of_lines [DEV1_record]), none⟩, []⟩)) :=
  ⟨(invalid_input_rejected_first transport_ok no_faults false
      ⟨⟨some (file_of_lines [DEV1_record]), none⟩, []⟩ sample_rendered (ascii "a\"b") (ascii "RI") 512
      (Or.inl ⟨34, by decide, Or.inl rfl⟩)).1,
   (invalid_input_rejected_first transport_ok no_faults false
      ⟨⟨some (file_of_lines [DEV1_record]), none⟩, []⟩ sample_rendered (List.replicate 300 65)
      (ascii "RI") 512 (Or.inr (Or.inl (by decide)))).1,
   (invalid_input_rejected_first transport_ok no_faults false
      ⟨⟨some (file_of_lines [DEV1_record]), none⟩, []⟩ sample_rendered (ascii "DEV1")
      (ascii "brix") 512 (Or.inr (Or.inr (by decide)))).1⟩

/-- C9 as stated fails: for the valid `DEV1` reading and a transport that
fails, `send_reading` returns -1 when the fallback `queue_append` succeeds
and -1 when it fails; the two results are not different. -/
theorem send_reading_same_result_when_append_fails :
    (send_reading (transport_failing_on DEV1_record) false ⟨⟨none, none⟩, []⟩
        (some (ascii "DEV1")) sample_rendered (ascii "RI")).1 = -1
    ∧ (send_reading (transport_failing_on DEV1_record) true ⟨⟨none, none⟩, []⟩
        (some (ascii "DEV1")) sample_rendered (ascii "RI")).1 = -1
    ∧ ¬ ((send_reading (transport_failing_on DEV1_record) false ⟨⟨none, none⟩, []⟩
          (some (ascii "DEV1")) sample_rendered (ascii "RI")).1
        ≠ (send_reading (transport_failing_on DEV1_record) true ⟨⟨none, none⟩, []⟩
          (some (ascii "DEV1")) sample_rendered (ascii "RI")).1) := by
  decide

/-- C9 (amended). For a valid reading (one `create_reading_json` accepts
with the 512-byte buffer) whose direct delivery fails, `send_reading`
returns -1 whether the fallback `queue_append` succeeds or fails. The two
cases differ in the queue file only: after a successful append it is the
previous content followed by the payload and a newline, after a failed
append the files are as before and the record is lost. -/
theorem send_reading_failure_result (post : Transport) (w : World)
    (device_id : Option (List Byte)) (r : Rendered) (unit : List Byte)
    (hvalid : 0 ≤ (create_reading_json 512 device_id r unit).1)
    (hfail : post (posts w.trace).length (reading_json (device_id.getD []) r unit) ≠ 0) :
    (send_reading post false w device_id r unit).1 = -1
    ∧ (send_reading post true w device_id r unit).1 = -1
    ∧ (send_reading post false w device_id r unit).2.fs.queue
        = some (w.fs.queue.getD [] ++ reading_json (device_id.getD []) r unit ++ [10])
    ∧ (send_reading post true w device_id r unit).2.fs = w.fs := by
  have hc := (create_reading_json_of_ok 512 device_id r unit hvalid).1
  have hn := cstr_eq_self _ (reading_json_no_nul (device_id.getD []) r unit)
  have hlen : ¬ ((reading_json (device_id.getD []) r unit).length : Int) < 0 := by omega
  unfold send_reading
  simp only [hc, hlen, if_false, Option.getD_some, hfail, queue_append, hn,
    Bool.false_eq_true, if_true, and_self]

/-- The amended C9 theorem at the `DEV1` reading with one record queued. -/
theorem send_reading_failure_result_witness :
    (send_reading (transport_failing_on DEV1_record) false
        ⟨⟨some (file_of_lines [DEV2_record]), none⟩, []⟩
        (some (ascii "DEV1")) sample_rendered (ascii "RI")).2.fs.queue
      = some (file_of_lines [DEV2_record] ++ DEV1_record ++ [10]) :=
  (send_reading_failure_result (transport_failing_on DEV1_record)
    ⟨⟨some (file_of_lines [DEV2_record]), none⟩, []⟩
    (some (ascii "DEV1")) sample_rendered (ascii "RI") (by decide) (by decide)).2.2.1

/-- C11 as stated fails. With the `MAX_LINE_LENGTH` buffer and a first line
of 1030 bytes, `queue_pop` returns 1023, not -1, and leaves the first 1023
bytes of the line in the buffer; with a 4-byte buffer and the first line
`abcdef` it returns 3 with `abc` in the buffer, and the rest of the line is
dropped from the file. -/
theorem queue_pop_truncates_long_line :
    (queue_pop PopFaults.none
        ⟨some (List.replicate 1030 97 ++ [10] ++ ascii "xy\n"), none⟩ MAX_LINE_LENGTH).ret = 1023
    ∧ (queue_pop PopFaults.none
        ⟨some (List.replicate 1030 97 ++ [10] ++ ascii "xy\n"), none⟩ MAX_LINE_LENGTH).buffer
      = some (List.replicate 1023 97)
    ∧ queue_pop PopFaults.none ⟨some (ascii "abcdef\nxy\n"), none⟩ 4
      = ⟨3, some (ascii "abc"), ⟨some (ascii "xy\n"), none⟩⟩ := by
  decide

/-- C11 (amended). When the queue file starts with a stretch `p` without
newline and without NUL that fills the buffer (`buffer_size - 1` bytes, the
first line is oversized) or that is the whole file (the line is
unterminated), a `queue_pop` without failing system call, with a buffer
size within `int`, returns the length of `p`, not -1, and leaves `p` in the
buffer like a complete record. -/
theorem queue_pop_long_line_truncated (p rest : List Byte) (tmp : Option (List Byte))
    (buffer_size : Nat)
    (hp : ∀ c ∈ p, c ≠ 0 ∧ c ≠ 10) (hne : p ≠ [])
    (hsize : buffer_size < 2 ^ 31) (hk : p.length + 1 ≤ buffer_size)
    (h : p.length + 1 = buffer_size ∨ rest = []) :
    (queue_pop PopFaults.none ⟨some (p ++ rest), tmp⟩ buffer_size).ret = (p.length : Int)
    ∧ (queue_pop PopFaults.none ⟨some (p ++ rest), tmp⟩ buffer_size).ret ≠ -1
    ∧ (queue_pop PopFaults.none ⟨some (p ++ rest), tmp⟩ buffer_size).buffer = some p := by
  have h1 := queue_pop_chunk p rest tmp buffer_size hp hne hsize hk h
  refine ⟨h1.1, ?_, h1.2⟩
  rw [h1.1]
  omega

/-- The amended C11 theorem at the first line `abcdef` with a 4-byte buffer
and at the unterminated file `ab` with the `MAX_LINE_LENGTH` buffer. -/
theorem queue_pop_long_line_truncated_witness :
    (queue_pop PopFaults.none ⟨some (ascii "abc" ++ ascii "def\nxy\n"), none⟩ 4).ret = 3
    ∧ (queue_pop PopFaults.none ⟨some (ascii "ab" ++ []), none⟩ 1024).ret = 2 :=
  ⟨(queue_pop_long_line_truncated (ascii "abc") (ascii "def\nxy\n") none 4
      (by decide) (by decide) (by decide) (by decide) (Or.inl (by decide))).1,
   (queue_pop_long_line_truncated (ascii "ab") [] none 1024
      (by decide) (by decide) (by decide) (by decide) (Or.inr rfl)).1⟩

/-- C14 as stated fails. The queue file that starts with an empty line is
not empty (`queue_has_entries` returns 1), yet `queue_pop` returns 0. -/
theorem queue_pop_zero_on_blank_head :
    queue_has_entries false ⟨some (ascii "\nab\n"), none⟩ = 1
    ∧ (queue_pop PopFaults.none ⟨some (ascii "\nab\n"), none⟩ MAX_LINE_LENGTH).ret = 0
    ∧ ¬ ((queue_pop PopFaults.none ⟨some (ascii "\nab\n"), none⟩ MAX_LINE_LENGTH).ret = 0
        ↔ queue_has_entries false ⟨some (ascii "\nab\n"), none⟩ = 0) := by
  decide

/-- C14 (amended). With the `MAX_LINE_LENGTH` buffer and no failing system
call: `queue_has_entries` returns 0 exactly for an absent or zero-byte file;
`queue_pop` returns 0 exactly when the queue is empty or the file starts
with a newline or a NUL byte (the head line is empty); it never returns a
negative number, and what it returns is the length of the string left in
the buffer. On a file of whole lines with a non-empty first line it returns
the positive length of that line. -/
theorem queue_pop_zero_iff (fs : FS) :
    (queue_has_entries false fs = 0 ↔ (fs.queue = none ∨ fs.queue = some []))
    ∧ ((queue_pop PopFaults.none fs MAX_LINE_LENGTH).ret = 0 ↔
        (queue_has_entries false fs = 0
          ∨ ∃ tl, fs.queue = some (10 :: tl) ∨ fs.queue = some (0 :: tl)))
    ∧ 0 ≤ (queue_pop PopFaults.none fs MAX_LINE_LENGTH).ret
    ∧ (∀ s, (queue_pop PopFaults.none fs MAX_LINE_LENGTH).buffer = some s →
        (queue_pop PopFaults.none fs MAX_LINE_LENGTH).ret = (s.length : Int))
    ∧ (∀ l ls, fs.queue = some (file_of_lines (l :: ls)) → line_ok l →
        (∀ x ∈ ls, line_ok x) → l ≠ [] →
        (queue_pop PopFaults.none fs MAX_LINE_LENGTH).ret = (l.length : Int)
          ∧ 0 < (queue_pop PopFaults.none fs MAX_LINE_LENGTH).ret) := by
  obtain ⟨q, tmp⟩ := fs
  have hlines : ∀ l ls, q = some (file_of_lines (l :: ls)) → line_ok l →
      (∀ x ∈ ls, line_ok x) → l ≠ [] →
      (queue_pop PopFaults.none ⟨q, tmp⟩ MAX_LINE_LENGTH).ret = (l.length : Int)
        ∧ 0 < (queue_pop PopFaults.none ⟨q, tmp⟩ MAX_LINE_LENGTH).ret := by
    intro l ls hq hl hls hne
    rw [hq, queue_pop_lines l ls tmp hl hls]
    have := List.length_pos.mpr hne
    simp only [Nat.cast_pos]
    exact ⟨trivial, this⟩
  cases q with
  | none =>
    refine ⟨by simp [queue_has_entries], ?_, ?_, ?_, hlines⟩
    · simp [queue_pop, PopFaults.none, queue_has_entries]
    · simp [queue_pop, PopFaults.none]
    · simp [queue_pop, PopFaults.none]
  | some content =>
    cases content with
    | nil =>
      have hf : fgets (to_int MAX_LINE_LENGTH) [] = none := by decide
      refine ⟨by simp [queue_has_entries], ?_, ?_, ?_, hlines⟩
      · simp [queue_pop, PopFaults.none, queue_has_entries, hf]
      · simp [queue_pop, PopFaults.none, hf]
      · simp [queue_pop, PopFaults.none, hf]
    | cons b tl =>
      rw [queue_pop_nonempty b tl tmp] at hlines ⊢
      refine ⟨by simp [queue_has_entries], ?_, by simp, ?_, hlines⟩
      · simp only [queue_has_entries, Bool.false_eq_true, if_false, Option.some.injEq,
          List.cons.injEq, false_or]
        by_cases h10 : b = 10
        · subst h10
          have hr : (fgets_read (10 :: tl) 1023).1 = [10] := by simp [fgets_read]
          rw [hr]
          have : strip_newline [10] = [] := by decide
          simp [this]
        · by_cases h0 : b = 0
          · subst h0
            have hr : (fgets_read (0 :: tl) 1023).1 = 0 :: (fgets_read tl 1022).1 := by
              simp [fgets_read]
            rw [hr]
            have : strip_newline (0 :: (fgets_read tl 1022).1) = [] := by
              simp [strip_newline, strlen, cstr]
            simp [this]
          · have hr : (fgets_read (b :: tl) 1023).1 = b :: (fgets_read tl 1022).1 := by
              simp [fgets_read, h10]
            rw [hr]
            have hpos := strip_newline_pos b (fgets_read tl 1022).1 h0 h10
            constructor
            · intro h
              have : (strip_newline (b :: (fgets_read tl 1022).1)).length = 0 := by
                exact_mod_cast h
              omega
            · rintro (h | ⟨t, h | h⟩)
              · simp at h
              · exact absurd h.1 h10
              · exact absurd h.1 h0
      · intro s hs
        simp only [Option.some.injEq] at hs
        rw [hs]

/-- C15 as stated fails for a line of any length: the queue file made of
one line of 1023 bytes and its newline has one entry, and `queue_count`
returns 2, one for each `fgets` read. -/
theorem queue_count_long_line_twice :
    queue_count false ⟨some (file_of_lines [List.replicate 1023 97]), none⟩ = 2
    ∧ queue_count false ⟨some (file_of_lines [List.replicate 1023 97]), none⟩
      ≠ (([List.replicate 1023 97] : List (List Byte)).length : Int) := by
  decide

/-- C15 (amended). For every queue file made of `n` newline-terminated
lines, each of at most `MAX_LINE_LENGTH - 2` bytes, `queue_count` returns
`n`; for an absent file it returns 0. -/
theorem queue_count_counts_lines (ls : List (List Byte)) (tmp : Option (List Byte))
    (h : ∀ l ∈ ls, (∀ c ∈ l, c ≠ 10) ∧ l.length + 2 ≤ MAX_LINE_LENGTH) :
    queue_count false ⟨some (file_of_lines ls), tmp⟩ = (ls.length : Int)
    ∧ queue_count false ⟨none, tmp⟩ = 0 := by
  constructor
  · simp only [queue_count, Bool.false_eq_true, if_false]
    exact count_loop_lines ls h
  · simp [queue_count]

/-- The amended C15 theorem at the queue `[DEV1, DEV2]`. -/
theorem queue_count_counts_lines_witness :
    queue_count false ⟨some (file_of_lines [DEV1_record, DEV2_record]), none⟩ = 2 :=
  (queue_count_counts_lines [DEV1_record, DEV2_record] none (by decide)).1

/-- C16 (clear is idempotent and empties the queue). A `queue_clear` that
returns 0 leaves the queue file absent and the temporary file untouched,
whether the file existed or not; a second clear then returns 0 again and
changes nothing; and afterwards `queue_has_entries`, `queue_count` and
`queue_pop` (whose `fopen` meets `ENOENT`) all return 0. -/
theorem queue_clear_idempotent (unlink_fails : Bool) (fs : FS)
    (h : (queue_clear unlink_fails fs).1 = 0) :
    (queue_clear unlink_fails fs).2 = ⟨none, fs.tmp⟩
    ∧ queue_clear false (queue_clear unlink_fails fs).2 = (0, (queue_clear unlink_fails fs).2)
    ∧ queue_has_entries false (queue_clear unlink_fails fs).2 = 0
    ∧ queue_count false (queue_clear unlink_fails fs).2 = 0
    ∧ ∀ (t r u : Bool) (buffer_size : Nat),
        queue_pop ⟨false, t, r, u⟩ (queue_clear unlink_fails fs).2 buffer_size
          = ⟨0, none, (queue_clear unlink_fails fs).2⟩ := by
  cases unlink_fails with
  | true => simp [queue_clear] at h
  | false =>
    simp [queue_clear, queue_has_entries, queue_count, queue_pop]

/-- The C16 theorem at an absent queue file and at the queue `[DEV1, DEV2]`. -/
theorem queue_clear_idempotent_witness :
    (queue_clear false ⟨none, none⟩).2 = ⟨none, none⟩
    ∧ (queue_clear false ⟨some (file_of_lines [DEV1_record, DEV2_record]), none⟩).2
        = ⟨none, none⟩ :=
  ⟨(queue_clear_idempotent false ⟨none, none⟩ rfl).1,
   (queue_clear_idempotent false ⟨some (file_of_lines [DEV1_record, DEV2_record]), none⟩ rfl).1⟩

/-- C19 (pop leaves a suffix). For every queue file content without NUL
byte, every buffer size and every outcome of the system calls, `queue_pop`
leaves the queue file as it was or replaces its content by a proper suffix
of it; after a pop that returns a positive length it is a proper suffix;
and on an absent or zero-byte file the queue file is as before. -/
theorem queue_pop_leaves_suffix (e : PopFaults) (fs : FS) (buffer_size : Nat)
    (h0 : ∀ content, fs.queue = some content → ∀ c ∈ content, c ≠ 0) :
    ((queue_pop e fs buffer_size).fs.queue = fs.queue
      ∨ ∃ old new removed, fs.queue = some old
          ∧ (queue_pop e fs buffer_size).fs.queue = some new
          ∧ removed ≠ [] ∧ old = removed ++ new)
    ∧ (0 < (queue_pop e fs buffer_size).ret →
        ∃ old new removed, fs.queue = some old
          ∧ (queue_pop e fs buffer_size).fs.queue = some new
          ∧ removed ≠ [] ∧ old = removed ++ new)
    ∧ ((fs.queue = none ∨ fs.queue = some []) →
        (queue_pop e fs buffer_size).fs.queue = fs.queue) := by
  obtain ⟨q, tmp⟩ := fs
  unfold queue_pop
  by_cases h1 : e.open_fails = true
  · simp [h1]
  · simp only [h1, Bool.false_eq_true, if_false]
    cases q with
    | none => simp
    | some content =>
      have hc0 : ∀ c ∈ content, c ≠ 0 := h0 content rfl
      simp only
      cases hf : fgets (to_int buffer_size) content with
      | none => simp
      | some p =>
        obtain ⟨raw, rest⟩ := p
        simp only
        by_cases h2 : e.tmp_open_fails = true
        · simp [h2]
        · by_cases h3 : e.rename_fails = true
          · simp [h2, h3]
          · simp only [h2, h3, Bool.false_eq_true, if_false]
            have hs := fgets_split _ _ _ _ hf
            have hrest : ∀ c ∈ rest, c ≠ 0 := fun c hc => hc0 c (by rw [← hs]; simp [hc])
            obtain ⟨d, hd⟩ := pop_copy_loop_suffix rest hrest
            have hold : content = (raw ++ d) ++ pop_copy_loop (rest.length + 1) true rest [] := by
              rw [List.append_assoc, ← hd, hs]
            refine ⟨?_, ?_, ?_⟩
            · by_cases hrd : raw ++ d = []
              · left
                rw [hrd] at hold
                simp only [List.nil_append] at hold
                rw [← hold]
              · right
                exact ⟨content, _, raw ++ d, rfl, rfl, hrd, hold⟩
            · intro hpos
              have hraw : raw ≠ [] := by
                intro hr
                rw [hr] at hpos
                have : to_int (strip_newline []).length = 0 := by decide
                rw [this] at hpos
                omega
              exact ⟨content, _, raw ++ d, rfl, rfl, by simp [hraw], hold⟩
            · intro hq
              rcases hq with hq | hq
              · simp at hq
              · simp only [Option.some.injEq] at hq
                rw [hq] at hold
                have : pop_copy_loop (rest.length + 1) true rest [] = [] := by
                  have := congrArg List.length hold
                  simp at this
                  exact List.length_eq_zero.mp (by omega)
                rw [this, hq]

/-- The C19 theorem at the queue of the lines `a`, `b`, `c`: the pop leaves
the suffix `c`. -/
theorem queue_pop_leaves_suffix_witness :
    ∃ old new removed,
      (⟨some (file_of_lines [ascii "a", ascii "b", ascii "c"]), none⟩ : FS).queue = some old
      ∧ (queue_pop PopFaults.none ⟨some (file_of_lines [ascii "a", ascii "b", ascii "c"]), none⟩
          MAX_LINE_LENGTH).fs.queue = some new
      ∧ removed ≠ [] ∧ old = removed ++ new :=
  (queue_pop_leaves_suffix PopFaults.none
    ⟨some (file_of_lines [ascii "a", ascii "b", ascii "c"]), none⟩ MAX_LINE_LENGTH
    (by
      intro content h c hc
      simp only [Option.some.injEq] at h
      subst h
      revert c
      decide)).2.1 (by decide)

/-- C20 (append-then-pop round trip on an empty queue). For every line `s`
without newline or NUL byte of at most `buffer_size - 2` bytes, the buffer
size within `int`: from an absent or zero-byte queue file, `queue_append(s)`
returns 0, the `queue_pop` after it returns the length of `s` with `s` in
the buffer, and the queue file is left with zero bytes, so that
`queue_has_entries` and `queue_count` return 0. -/
theorem append_pop_round_trip (s : List Byte) (fs : FS) (buffer_size : Nat)
    (hs : ∀ c ∈ s, c ≠ 0 ∧ c ≠ 10)
    (hlen : s.length + 2 ≤ buffer_size) (hsize : buffer_size < 2 ^ 31)
    (hempty : fs.queue = none ∨ fs.queue = some []) :
    (queue_append false fs s).1 = 0
    ∧ queue_pop PopFaults.none (queue_append false fs s).2 buffer_size
        = ⟨(s.length : Int), some s, ⟨some [], none⟩⟩
    ∧ queue_has_entries false
        (queue_pop PopFaults.none (queue_append false fs s).2 buffer_size).fs = 0
    ∧ queue_count false
        (queue_pop PopFaults.none (queue_append false fs s).2 buffer_size).fs = 0 := by
  have h0 : ∀ c ∈ s, c ≠ 0 := fun c hc => (hs c hc).1
  have happ : queue_append false fs s = (0, ⟨some (s ++ [10]), fs.tmp⟩) := by
    unfold queue_append
    rcases hempty with h | h <;> simp [h, cstr_eq_self s h0]
  have hti : to_int buffer_size = (buffer_size : Int) := to_int_of_lt _ hsize
  have hn : ((buffer_size : Int) - 1).toNat = buffer_size - 1 := by omega
  have hr := fgets_read_line s [] (buffer_size - 1) (fun c hc => (hs c hc).2) (by omega)
  have hf : fgets (to_int buffer_size) (s ++ [10]) = some (s ++ [10], []) := by
    unfold fgets
    rw [hti, hn]
    have h1 : ¬ ((buffer_size : Int) ≤ 0) := by omega
    have h2 : ¬ ((buffer_size : Int) = 1) := by omega
    rw [if_neg h1, if_neg h2]
    cases hx : s ++ [10] with
    | nil => simp at hx
    | cons b t => rw [hx] at hr; simp [hr]
  have hloop : pop_copy_loop (([] : List Byte).length + 1) true [] [] = [] := by decide
  have hslen : s.length < 2 ^ 31 := by omega
  have hpop : queue_pop PopFaults.none ⟨some (s ++ [10]), fs.tmp⟩ buffer_size
      = ⟨(s.length : Int), some s, ⟨some [], none⟩⟩ := by
    unfold queue_pop
    simp only [PopFaults.none, Bool.false_eq_true, if_false, hf, strip_newline_append_nl s h0,
      hloop, to_int_of_lt _ hslen]
  rw [happ]
  simp only [hpop, true_and]
  constructor
  · rfl
  · decide

/-- The C20 theorem at the `DEV1` record, from an absent queue file, with
the `MAX_LINE_LENGTH` buffer. -/
theorem append_pop_round_trip_witness :
    queue_pop PopFaults.none (queue_append false ⟨none, none⟩ DEV1_record).2 1024
      = ⟨(DEV1_record.length : Int), some DEV1_record, ⟨some [], none⟩⟩ :=
  (append_pop_round_trip DEV1_record ⟨none, none⟩ 1024 (by decide) (by decide) (by decide)
    (Or.inl rfl)).2.1

/-- C17 (a serialized record is a single line). Whenever
`create_reading_json` succeeds, the rendered timestamp, value and
temperature holding no newline, the string it leaves in the buffer holds no
newline byte and no NUL byte. When moreover the buffer is smaller than
`MAX_LINE_LENGTH` (`send_reading` uses 512 bytes), `queue_append` of that
string to an absent queue file or to a queue file of lines that fit the
line buffer makes `queue_count` grow by exactly 1. -/
theorem reading_json_single_line (buffer_size : Nat) (device_id : Option (List Byte))
    (r : Rendered) (unit : List Byte)
    (hok : 0 ≤ (create_reading_json buffer_size device_id r unit).1)
    (hts : ∀ c ∈ cstr r.timestamp, c ≠ 10) (hval : ∀ c ∈ cstr r.value, c ≠ 10)
    (htemp : ∀ c ∈ cstr r.temperature_c, c ≠ 10) :
    ∃ payload, (create_reading_json buffer_size device_id r unit).2 = some payload
      ∧ (∀ c ∈ payload, c ≠ 0 ∧ c ≠ 10)
      ∧ (buffer_size < MAX_LINE_LENGTH →
          ∀ (ls : List (List Byte)) (tmp : Option (List Byte)),
            (∀ l ∈ ls, (∀ c ∈ l, c ≠ 10) ∧ l.length + 2 ≤ MAX_LINE_LENGTH) →
            queue_count false (queue_append false ⟨some (file_of_lines ls), tmp⟩ payload).2
                = queue_count false ⟨some (file_of_lines ls), tmp⟩ + 1
            ∧ queue_count false (queue_append false ⟨none, tmp⟩ payload).2
                = queue_count false ⟨none, tmp⟩ + 1) := by
  have hc := create_reading_json_of_ok buffer_size device_id r unit hok
  have hv := create_reading_json_ok_valid buffer_size device_id r unit hok
  have hd : validate_device_id (some (device_id.getD [])) = 1 := by
    cases device_id with
    | none => simp [validate_device_id] at hv
    | some d => simpa using hv.1
  have hnl := reading_json_no_newline (device_id.getD []) r unit hd hv.2 hts hval htemp
  have hnul := reading_json_no_nul (device_id.getD []) r unit
  refine ⟨reading_json (device_id.getD []) r unit, by rw [hc.1],
    fun c hc' => ⟨hnul c hc', hnl c hc'⟩, ?_⟩
  intro hbuf ls tmp hls
  exact queue_count_append ls tmp _ hls (fun c hc' => ⟨hnul c hc', hnl c hc'⟩)
    (by have := hc.2; omega)

/-- The C17 theorem at the `DEV1` reading with the 512-byte buffer of
`send_reading`, appended to the queue `[DEV2]`. -/
theorem reading_json_single_line_witness :
    ∃ payload, (create_reading_json 512 (some (ascii "DEV1")) sample_rendered (ascii "RI")).2
        = some payload
      ∧ (∀ c ∈ payload, c ≠ 0 ∧ c ≠ 10)
      ∧ queue_count false (queue_append false ⟨some (file_of_lines [DEV2_record]), none⟩ payload).2
          = queue_count false ⟨some (file_of_lines [DEV2_record]), none⟩ + 1 :=
  let ⟨payload, h1, h2, h3⟩ := reading_json_single_line 512 (some (ascii "DEV1")) sample_rendered
    (ascii "RI") (by decide) (by decide) (by decide) (by decide)
  ⟨payload, h1, h2, (h3 (by decide) [DEV2_record] none (by decide)).1⟩

/-- C12 (I/O errors are propagated by the flush controller) fails on the
code. With the `DEV1` record queued and a `queue_pop` that returns -1 (the
temporary file cannot be created), `flush_queue` returns 0 and the
flush-only `main` exits with code 0, exactly as for a flush of an absent
queue file, although `main` tests `flushed >= 0` to exit with code 1. With
a failing transport and a re-append that returns -1, `flush_queue` returns
0 as well, and the record is gone from the queue. -/
theorem flush_swallows_io_error :
    (queue_pop ⟨false, true, false, false⟩ ⟨some (file_of_lines [DEV1_record]), none⟩
        MAX_LINE_LENGTH).ret = -1
    ∧ (flush_queue transport_ok (fun _ => ⟨false, ⟨false, true, false, false⟩, false⟩)
        ⟨⟨some (file_of_lines [DEV1_record]), none⟩, []⟩).map (fun p => p.1) = some 0
    ∧ (flush_queue transport_ok no_faults ⟨⟨none, none⟩, []⟩).map (fun p => p.1) = some 0
    ∧ (main transport_ok (fun _ => ⟨false, ⟨false, true, false, false⟩, false⟩) false
        ⟨none, none, true, sample_rendered⟩
        ⟨⟨some (file_of_lines [DEV1_record]), none⟩, []⟩).map (fun p => p.1) = some 0
    ∧ (queue_append true ⟨some [], none⟩ DEV1_record).1 = -1
    ∧ (flush_queue (transport_failing_on DEV1_record) (fun _ => ⟨false, PopFaults.none, true⟩)
        ⟨⟨some (file_of_lines [DEV1_record]), none⟩, []⟩).map (fun p => (p.1, p.2.fs.queue))
      = some (0, some []) := by
  decide

/-- The test `flushed >= 0` of the flush-only `main` never fails. For
every transport, every outcome of the system calls and every state of the
queue `flush_queue` ends and returns a count that is not negative, and the
flush-only `main` exits with code 0. When the queue has entries and the
first `queue_pop` returns -1, `flush_queue` returns 0 with the files as
that pop left them. -/
theorem flush_queue_never_reports_error (post : Transport) (io : Nat → FlushFaults)
    (append_open_fails : Bool) (device_id unit : Option (List Byte)) (r : Rendered)
    (w : World) :
    (∃ n w', flush_queue post io w = some (n, w') ∧ 0 ≤ n
      ∧ main post io append_open_fails ⟨device_id, unit, true, r⟩ w = some (0, w'))
    ∧ (queue_has_entries (io 0).has_entries_open_fails w.fs = 1 →
        (queue_pop (io 0).pop w.fs MAX_LINE_LENGTH).ret = -1 →
        flush_queue post io w
          = some (0, ⟨(queue_pop (io 0).pop w.fs MAX_LINE_LENGTH).fs,
              w.trace ++ [Event.has_entries] ++ [Event.pop]⟩)) := by
  constructor
  · obtain ⟨bodies, w', h1, _, _⟩ := flush_queue_spec post io w
    refine ⟨_, w', h1, by positivity, ?_⟩
    unfold main
    simp only [if_true, h1]
    simp
  · intro hh hr
    unfold flush_queue
    rw [flush_loop]
    simp [hh, hr]

/-- C13 as stated fails. The queue file made of one newline-terminated line
of 2047 bytes holds one entry; with a transport that always succeeds
`flush_queue` returns 2: the first 1023 bytes and the last byte of the line
are sent as two records. -/
theorem flush_returns_more_than_entries :
    (flush_queue transport_ok no_faults
        ⟨⟨some (file_of_lines [List.replicate 2047 97]), none⟩, []⟩).map (fun p => p.1)
      = some 2
    ∧ ¬ ((2 : Int) ≤ (([List.replicate 2047 97] : List (List Byte)).length : Int)) := by
  have hsplit : List.replicate 2047 (97 : Byte)
      = List.replicate 1023 97 ++ (List.replicate 1023 97 ++ [97]) := by
    rw [show (2047 : Nat) = 1023 + (1023 + 1) from rfl, List.replicate_add,
      List.replicate_add]
    rfl
  have hmem : ∀ c ∈ List.replicate 1023 (97 : Byte), c ≠ 0 ∧ c ≠ 10 := by
    intro c hc
    rw [List.eq_of_mem_replicate hc]
    decide
  refine ⟨?_, by decide⟩
  rw [hsplit, flush_queue_long_line (List.replicate 1023 97) (List.replicate 1023 97) [97]
    none [] hmem (by simp) (fun c hc => (hmem c hc).2) (by simp)
    ⟨by decide, by decide⟩ (by decide)]
  rfl

/-- C13 (amended). For every queue file, every transport and every outcome
of the system calls, `flush_queue` ends and returns exactly the number of
transport calls of this run that the transport answered with 0; the count
is not negative and not larger than the number of reads `queue_count`
counts at the start, which for a queue file of lines of at most
`MAX_LINE_LENGTH - 2` bytes is the number of entries. -/
theorem flush_queue_returns_successes (post : Transport) (io : Nat → FlushFaults)
    (w : World) :
    ∃ n w' bodies, flush_queue post io w = some (n, w')
      ∧ posts w'.trace = posts w.trace ++ bodies
      ∧ n = (successes post (posts w.trace).length bodies : Int)
      ∧ 0 ≤ n
      ∧ n ≤ queue_count false w.fs
      ∧ ∀ ls, w.fs.queue = some (file_of_lines ls) →
          (∀ l ∈ ls, (∀ c ∈ l, c ≠ 10) ∧ l.length + 2 ≤ MAX_LINE_LENGTH) →
          n ≤ (ls.length : Int) := by
  obtain ⟨bodies, w', h1, h2, h3⟩ := flush_queue_spec post io w
  have h4 : ((successes post (posts w.trace).length bodies : Nat) : Int) ≤ bodies.length := by
    exact_mod_cast successes_le post _ bodies
  refine ⟨_, w', bodies, h1, h2, rfl, by positivity, by omega, ?_⟩
  intro ls hq hls
  have hc := (queue_count_counts_lines_aux ls w.fs.tmp hls)
  have hfs : w.fs = ⟨some (file_of_lines ls), w.fs.tmp⟩ := by
    cases hw : w.fs with
    | mk q t => rw [hw] at hq; simp only at hq; rw [hq]
  rw [hfs, hc] at h3
  omega

/-- C18 as stated fails in its bound. The queue file made of one
newline-terminated line of 3000 bytes has one line; with a transport that
always succeeds `flush_queue` makes two transport calls, with the first
1023 bytes and with the last 954 bytes of the line. -/
theorem flush_calls_more_than_lines :
    (flush_queue transport_ok no_faults
        ⟨⟨some (file_of_lines [List.replicate 3000 97]), none⟩, []⟩).map
        (fun p => posts p.2.trace)
      = some [List.replicate 1023 97, List.replicate 954 97]
    ∧ ¬ (([List.replicate 1023 97, List.replicate 954 97] : List (List Byte)).length
        ≤ ([List.replicate 3000 97] : List (List Byte)).length) := by
  have hsplit : List.replicate 3000 (97 : Byte)
      = List.replicate 1023 97 ++ (List.replicate 1023 97 ++ List.replicate 954 97) := by
    rw [show (3000 : Nat) = 1023 + (1023 + 954) from rfl, List.replicate_add,
      List.replicate_add]
  have hmem : ∀ n, ∀ c ∈ List.replicate n (97 : Byte), c ≠ 0 ∧ c ≠ 10 := by
    intro n c hc
    rw [List.eq_of_mem_replicate hc]
    decide
  have hok : line_ok (List.replicate 954 97) :=
    ⟨hmem 954, by simp [MAX_LINE_LENGTH]⟩
  have hne : List.replicate 954 (97 : Byte) ≠ [] := by
    intro h
    have := congrArg List.length h
    simp at this
  refine ⟨?_, by decide⟩
  rw [hsplit, flush_queue_long_line (List.replicate 1023 97) (List.replicate 1023 97)
    (List.replicate 954 97) none [] (hmem 1023) (by simp) (fun c hc => (hmem 1023 c hc).2)
    (by simp) hok hne]
  simp [posts]

/-- C18 (amended). For every queue file content, every transport and every
outcome of the system calls, the loop of `flush_queue` ends: with any fuel
above the size of the queue file it gives one and the same result. The
number of transport calls it makes is at most the number of reads
`queue_count` counts at the start, which for a queue file of lines of at
most `MAX_LINE_LENGTH - 2` bytes is the number of lines. -/
theorem flush_queue_terminates (post : Transport) (io : Nat → FlushFaults) (w : World) :
    ∃ n w' bodies, flush_queue post io w = some (n, w')
      ∧ (∀ fuel, (w.fs.queue.getD []).length < fuel →
          flush_loop post io fuel 0 0 w = some (n, w'))
      ∧ posts w'.trace = posts w.trace ++ bodies
      ∧ (bodies.length : Int) ≤ queue_count false w.fs
      ∧ ∀ ls, w.fs.queue = some (file_of_lines ls) →
          (∀ l ∈ ls, (∀ c ∈ l, c ≠ 10) ∧ l.length + 2 ≤ MAX_LINE_LENGTH) →
          bodies.length ≤ ls.length := by
  obtain ⟨bodies, w', h1, h2, h3⟩ := flush_queue_spec post io w
  refine ⟨_, w', bodies, h1, ?_, h2, h3, ?_⟩
  · intro fuel hf
    rw [flush_loop_fuel_ge post io fuel w hf, h1]
  · intro ls hq hls
    have hc := (queue_count_counts_lines_aux ls w.fs.tmp hls)
    have hfs : w.fs = ⟨some (file_of_lines ls), w.fs.tmp⟩ := by
      cases hw : w.fs with
      | mk q t => rw [hw] at hq; simp only at hq; rw [hq]
    rw [hfs, hc] at h3
    exact_mod_cast h3

end RefractIQ
